import Mathlib

/-
Verification of the GDZ ingestion pipeline against its specification.

Shallow embedding of the relevant Python modules:
  apps/worker/segmentation/problems.py   (segment_problems, split_multi_problem_line)
  apps/worker/segmentation/answers.py    (parse_answers_from_text, link_answers_to_problems)
  apps/worker/ocr_cleaner.py             (fix_math_symbols, fix_hyphenation, ...)
  apps/worker/llm_ocr_correct.py         (correct_normalized_pages with checkpoints)
  apps/worker/ingestion.py               (import_from_normalized_file_llm)
  apps/worker/document_map.py            (RE_PARAGRAPH)

Strings are modelled as lists of characters; the regular expressions of the
source are embedded as bespoke matching functions with Python `re` semantics
(leftmost match, greedy repetition, IGNORECASE where the source sets it).
-/

namespace GDZ

set_option maxRecDepth 20000

abbrev Str := List Char

/-- Python whitespace for str.strip and the regex class backslash-s
(ASCII part, which is all that occurs in the pipeline's texts). -/
def pySpace (c : Char) : Bool :=
  c.toNat = 32 || c.toNat = 9 || c.toNat = 10 || c.toNat = 13 || c.toNat = 11 || c.toNat = 12

/-- The regex class backslash-d (ASCII digits). -/
def pyDigit (c : Char) : Bool :=
  48 ≤ c.toNat && c.toNat ≤ 57

/-- Lower-casing of the characters the embedded patterns use
(Latin A-Z and Cyrillic А-Я, Ё), for IGNORECASE matching. -/
def pyLower (c : Char) : Char :=
  if 65 ≤ c.toNat && c.toNat ≤ 90 then Char.ofNat (c.toNat + 32)
  else if 0x410 ≤ c.toNat && c.toNat ≤ 0x42F then Char.ofNat (c.toNat + 0x20)
  else if c.toNat = 0x401 then Char.ofNat 0x451
  else c

/-- Python str.lstrip(). -/
def lstrip (s : Str) : Str := s.dropWhile pySpace

/-- Python str.rstrip(). -/
def rstrip (s : Str) : Str := (s.reverse.dropWhile pySpace).reverse

/-- Python str.strip(). -/
def strip (s : Str) : Str := rstrip (lstrip s)

/-- Python text.split(the newline character). -/
def splitLines : Str → List Str
  | [] => [[]]
  | c :: t =>
    if c = '\n' then [] :: splitLines t
    else
      match splitLines t with
      | h :: r => (c :: h) :: r
      | [] => [[c]]

/-- Join a list of strings with a separator (Python sep.join). -/
def joinSep (sep : Str) : List Str → Str
  | [] => []
  | [x] => x
  | x :: y :: r => x ++ sep ++ joinSep sep (y :: r)

/-- Python s[a:b] for 0 ≤ a ≤ b. -/
def slice (s : Str) (a b : Nat) : Str := (s.drop a).take (b - a)

/-! ### Matching combinators (consume a prefix, Python `re` semantics) -/

/-- Consume a case-insensitive literal (the literal is given pre-lowercased);
returns the rest of the input on success. -/
def eatLit : Str → Str → Option Str
  | [], s => some s
  | _, [] => none
  | w :: wt, c :: ct => if pyLower c = w then eatLit wt ct else none

/-- Consume one exact character (no case folding; used for digits/punctuation). -/
def eatChar (w : Char) : Str → Option Str
  | [] => none
  | c :: ct => if c = w then some ct else none

/-- The regex piece backslash-s star (greedy). -/
def eatWs0 (s : Str) : Str := s.dropWhile pySpace

/-- The regex piece backslash-s plus (greedy). -/
def eatWs1 (s : Str) : Option Str :=
  match s with
  | c :: t => if pySpace c then some (t.dropWhile pySpace) else none
  | [] => none

/-- The regex piece backslash-d plus (greedy); returns (digits, rest). -/
def eatDigits1 (s : Str) : Option (Str × Str) :=
  let d := s.takeWhile pyDigit
  if d.isEmpty then none else some (d, s.dropWhile pyDigit)

/-- An optional piece: consume if possible, otherwise leave the input as is. -/
def eatOpt (f : Str → Option Str) (s : Str) : Str := (f s).getD s

/-- Try a matcher at every position, left to right (re.search). -/
def searchCap (m : Str → Option Str) : Str → Option Str
  | [] => m []
  | s@(_ :: t) =>
    match m s with
    | some r => some r
    | none => searchCap m t

/-! ### PROBLEM_START_PATTERNS from segmentation/problems.py, in source order.
Each matcher matches at one position and returns the captured number group. -/

/-- Shared tail of the "labelled assignment" patterns:
backslash-s star, optional numero sign + ws, optional open paren + ws,
captured digits, optional close paren. -/
def tailNumOptParen (s : Str) : Option Str := do
  let s := eatWs0 s
  let s := eatOpt (fun r => do let r ← eatChar '№' r; pure (eatWs0 r)) s
  let s := eatOpt (fun r => do let r ← eatChar '(' r; pure (eatWs0 r)) s
  let (d, _) ← eatDigits1 s
  pure d

/-- Pattern "Контрольное задание ... (N)". -/
def patKontrolnoeZadanie (s : Str) : Option Str := do
  let s ← eatLit "контрольное задание".data s
  tailNumOptParen s

/-- Pattern "Контрольные задания ... (N)". -/
def patKontrolnyeZadaniya (s : Str) : Option Str := do
  let s ← eatLit "контрольные задания".data s
  tailNumOptParen s

/-- Pattern "Практическое задание ... (N)". -/
def patPrakticheskoeZadanie (s : Str) : Option Str := do
  let s ← eatLit "практическое задание".data s
  tailNumOptParen s

/-- Pattern "Задача ( N ) ." (parenthesised form). -/
def patZadachaParen (s : Str) : Option Str := do
  let s ← eatLit "задача".data s
  let s := eatWs0 s
  let s ← eatChar '(' s
  let s := eatWs0 s
  let (d, s) ← eatDigits1 s
  let s := eatWs0 s
  let s ← eatChar ')' s
  let s := eatWs0 s
  let _ := eatOpt (eatChar '.') s
  pure d

/-- Pattern "Задача N". -/
def patZadacha (s : Str) : Option Str := do
  let s ← eatLit "задача".data s
  let s ← eatWs1 s
  let (d, _) ← eatDigits1 s
  pure d

/-- Pattern "Упражнение N". -/
def patUprazhnenie (s : Str) : Option Str := do
  let s ← eatLit "упражнение".data s
  let s ← eatWs1 s
  let (d, _) ← eatDigits1 s
  pure d

/-- Pattern "Упражнение ( N )". -/
def patUprazhnenieParen (s : Str) : Option Str := do
  let s ← eatLit "упражнение".data s
  let s := eatWs0 s
  let s ← eatChar '(' s
  let s := eatWs0 s
  let (d, s) ← eatDigits1 s
  let s := eatWs0 s
  let _ ← eatChar ')' s
  pure d

/-- Pattern "Вопрос ... (N)". -/
def patVopros (s : Str) : Option Str := do
  let s ← eatLit "вопрос".data s
  tailNumOptParen s

/-- Pattern "Вопросы? к? № N". -/
def patVoprosy (s : Str) : Option Str := do
  let s ← eatLit "вопрос".data s
  let s := eatOpt (eatLit "ы".data) s
  let s ← eatWs1 s
  let s := eatOpt (eatLit "к".data) s
  let s := eatWs0 s
  let s := eatOpt (fun r => do let r ← eatChar '№' r; pure (eatWs0 r)) s
  let (d, _) ← eatDigits1 s
  pure d

/-- Pattern "Задание ( N )". -/
def patZadanieParen (s : Str) : Option Str := do
  let s ← eatLit "задание".data s
  let s := eatWs0 s
  let s ← eatChar '(' s
  let s := eatWs0 s
  let (d, s) ← eatDigits1 s
  let s := eatWs0 s
  let _ ← eatChar ')' s
  pure d

/-- Pattern "Задание N" (whitespace-separated). -/
def patZadanieWs (s : Str) : Option Str := do
  let s ← eatLit "задание".data s
  let s ← eatWs1 s
  let (d, _) ← eatDigits1 s
  pure d

/-- Pattern "Задание № N" (optional numero, optional whitespace). -/
def patZadanieNum (s : Str) : Option Str := do
  let s ← eatLit "задание".data s
  let s := eatWs0 s
  let s := eatOpt (fun r => do let r ← eatChar '№' r; pure (eatWs0 r)) s
  let (d, _) ← eatDigits1 s
  pure d

/-- Pattern "Exercise N". -/
def patExercise (s : Str) : Option Str := do
  let s ← eatLit "exercise".data s
  let s ← eatWs1 s
  let (d, _) ← eatDigits1 s
  pure d

/-- Fractional number capture: digits, optionally followed by a dot and more
digits (the regex piece for a number like 4.1, with backtracking on the dot). -/
def eatNumDotted (s : Str) : Option Str := do
  let (d, r) ← eatDigits1 s
  match r with
  | '.' :: r2 =>
    match eatDigits1 r2 with
    | some (d2, _) => pure (d ++ '.' :: d2)
    | none => pure d
  | _ => pure d

/-- Pattern "№ N" or "№ N.M". -/
def patNumero (s : Str) : Option Str := do
  let s ← eatChar '№' s
  eatNumDotted (eatWs0 s)

/-- Anchored pattern "N. " at the start of the line. -/
def patAnchoredDot (s : Str) : Option Str := do
  let (d, s) ← eatDigits1 s
  let s ← eatChar '.' s
  let _ ← eatWs1 s
  pure d

/-- Anchored pattern "N) " at the start of the line. -/
def patAnchoredParen (s : Str) : Option Str := do
  let (d, s) ← eatDigits1 s
  let s ← eatChar ')' s
  let _ ← eatWs1 s
  pure d

/-- First defined value in a list of optional results (the "first pattern in
source order with a match wins" loop). -/
def firstSome : List (Option Str) → Option Str
  | [] => none
  | some x :: _ => some x
  | none :: t => firstSome t

/-- The ordered PROBLEM_START_PATTERNS of segmentation/problems.py, applied
with re.search semantics (the last two patterns are start-anchored). -/
def problemStartResults (stripped : Str) : List (Option Str) :=
  [searchCap patKontrolnoeZadanie stripped,
   searchCap patKontrolnyeZadaniya stripped,
   searchCap patPrakticheskoeZadanie stripped,
   searchCap patZadachaParen stripped,
   searchCap patZadacha stripped,
   searchCap patUprazhnenie stripped,
   searchCap patUprazhnenieParen stripped,
   searchCap patVopros stripped,
   searchCap patVoprosy stripped,
   searchCap patZadanieParen stripped,
   searchCap patZadanieWs stripped,
   searchCap patZadanieNum stripped,
   searchCap patExercise stripped,
   searchCap patNumero stripped,
   patAnchoredDot stripped,
   patAnchoredParen stripped]

/-- The PROBLEM_START_PATTERNS loop of segment_problems: the first pattern (in
source order) that has a match anywhere in the line wins; returns the captured
number group. -/
def problemStartNumber (stripped : Str) : Option Str :=
  firstSome (problemStartResults stripped)

/-- A case-insensitive word with optional whitespace between its letters
(the spaced alternatives of RE_SOLUTION_START). -/
def spacedLit : Str → Str → Option Str
  | [], s => some s
  | w :: wt, s =>
    match eatLit [w] s with
    | some r => spacedLit wt (eatWs0 r)
    | none => none

/-- The letters of "решение" (for RE_SOLUTION_START). -/
def wordReshenie : Str := ['р', 'е', 'ш', 'е', 'н', 'и', 'е']

/-- The letters of "ответ" (for RE_SOLUTION_START). -/
def wordOtvet : Str := ['о', 'т', 'в', 'е', 'т']

/-- RE_SOLUTION_START searched on a stripped line: all four alternatives are
start-anchored, so this is a prefix test for a possibly-spaced
"Решение." or "Ответ.". -/
def solutionStart (stripped : Str) : Bool :=
  (match (do let s ← spacedLit wordReshenie (eatWs0 stripped)
             eatChar '.' (eatWs0 s) : Option Str) with
    | some _ => true | none => false) ||
  (match (do let s ← spacedLit wordOtvet (eatWs0 stripped)
             eatChar '.' (eatWs0 s) : Option Str) with
    | some _ => true | none => false)

/-! ### segment_problems (segmentation/problems.py lines 37-116) -/

/-- One problem record produced by segment_problems. -/
structure SegProblem where
  number : Option Str
  text : Str
  solutionText : Option Str
  confidence : Nat
deriving DecidableEq, Repr

/-- The scanning state of segment_problems. -/
structure SegState where
  problems : List SegProblem
  currentProblem : Option Str
  currentNumber : Option Str
  solutionLines : Option (List Str)
deriving DecidableEq, Repr

/-- Python truthiness of the optional current_problem string. -/
def truthyStr : Option Str → Bool
  | some s => !s.isEmpty
  | none => false

/-- Flush of the accumulated problem buffer: emitted only when its length
exceeds 20 characters. -/
def flushCurrent (st : SegState) : List SegProblem :=
  match st.currentProblem with
  | some cp =>
    if cp.length > 20 then
      st.problems ++ [⟨st.currentNumber, strip cp, none, 60⟩]
    else st.problems
  | none => st.problems

/-- Attach the accumulated solution lines to the last emitted problem
(the flush of solution_lines in segment_problems). -/
def attachSolution (probs : List SegProblem) (sl : List Str) : List SegProblem :=
  let sol := strip (joinSep "\n".data (sl.filter (fun s => !s.isEmpty)))
  if sol.isEmpty then probs
  else
    match probs.reverse with
    | [] => probs
    | last :: front => (({ last with solutionText := some sol } : SegProblem) :: front).reverse

/-- Processing of one line of the segment_problems state machine. -/
def segLine (st : SegState) (line : Str) : SegState :=
  let stripped := strip line
  if stripped.isEmpty then
    if truthyStr st.currentProblem && st.solutionLines.isNone then
      { st with currentProblem := st.currentProblem.map (fun cp => cp ++ '\n' :: rstrip line) }
    else
      match st.solutionLines with
      | some sl => { st with solutionLines := some (sl ++ [rstrip line]) }
      | none => st
  else if solutionStart stripped then
    { problems := flushCurrent st
      currentProblem := none
      currentNumber := none
      solutionLines := some [stripped] }
  else
    match problemStartNumber stripped with
    | some number =>
      let probs :=
        match st.solutionLines with
        | some sl => if st.problems.isEmpty then st.problems else attachSolution st.problems sl
        | none => st.problems
      let st1 : SegState := { st with problems := probs, solutionLines := none }
      { problems := flushCurrent st1
        currentProblem := some stripped
        currentNumber := some number
        solutionLines := none }
    | none =>
      match st.solutionLines with
      | some sl => { st with solutionLines := some (sl ++ [stripped]) }
      | none =>
        match st.currentProblem with
        | some cp => { st with currentProblem := some (cp ++ '\n' :: stripped) }
        | none => st

/-- The trailing flush of segment_problems: attach pending solution lines to
the last problem, then flush the still-open problem buffer. -/
def segFinal (st : SegState) : List SegProblem :=
  let probs :=
    match st.solutionLines with
    | some sl => if st.problems.isEmpty then st.problems else attachSolution st.problems sl
    | none => st.problems
  flushCurrent { st with problems := probs }

/-- segment_problems. The page_num argument is accepted (and ignored) exactly
as in the source. -/
def segment_problems (text : Str) (pageNum : Nat) : List SegProblem :=
  let _ := pageNum
  if text.isEmpty || (strip text).length < 10 then []
  else segFinal ((splitLines text).foldl segLine ⟨[], none, none, none⟩)

/-! ### The multi-problem line splitter (lines 119-164) -/

/-- RE_NUM_DOT matched at one position: digits, a dot, at least one whitespace
character (greedy); returns the captured digits and the consumed length. -/
def numDotMatchAt (s : Str) : Option (Str × Nat) := do
  let (d, r) ← eatDigits1 s
  let r2 ← eatChar '.' r
  let ws := r2.takeWhile pySpace
  if ws.isEmpty then none
  else pure (d, d.length + 1 + ws.length)

/-- re.finditer of RE_NUM_DOT: leftmost non-overlapping matches, as
(start, captured digits, end) triples of absolute positions. -/
def numDotGo : Nat → Str → Nat → List (Nat × Str × Nat)
  | 0, _, _ => []
  | _ + 1, [], _ => []
  | fuel + 1, s@(_ :: t), pos =>
    match numDotMatchAt s with
    | some (d, k) => (pos, d, pos + k) :: numDotGo fuel (s.drop k) (pos + k)
    | none => numDotGo fuel t (pos + 1)

/-- All RE_NUM_DOT matches of a string. -/
def numDotFinditer (s : Str) : List (Nat × Str × Nat) :=
  numDotGo (s.length + 1) s 0

/-- Segment construction of split_multi_problem_line: each match yields the
text from its start to the next match's start (or the end), stripped,
kept only when longer than 15 characters. -/
def buildSegs (s : Str) : List (Nat × Str × Nat) → List (Str × Str)
  | [] => []
  | [(st, d, _)] =>
    let seg := strip (slice s st s.length)
    if seg.length > 15 then [(d, seg)] else []
  | (st, d, _) :: m2 :: rest =>
    let seg := strip (slice s st m2.1)
    (if seg.length > 15 then [(d, seg)] else []) ++ buildSegs s (m2 :: rest)

/-- split_multi_problem_line. -/
def split_multi_problem_line (text : Str) : List (Str × Str) :=
  if text.isEmpty || (strip text).length < 10 then []
  else
    let stripped := strip text
    let ms := numDotFinditer stripped
    if ms.length ≤ 1 then
      match numDotMatchAt stripped with
      | some (d, _) => [(d, stripped)]
      | none => []
    else buildSegs stripped ms

/-- The line-level multi-problem splitter applied to each flushed problem. -/
def applyMultiProblemSplit (ps : List SegProblem) : List SegProblem :=
  ps.flatMap fun p =>
    let parts := split_multi_problem_line p.text
    if parts.length ≤ 1 then [p]
    else parts.map fun pr => ⟨some pr.1, pr.2, p.solutionText, p.confidence⟩

/-- The segmentation engine of claim C2: segment_problems followed by the
multi-problem line splitter. -/
def segmentThenSplit (text : Str) (pageNum : Nat) : List SegProblem :=
  applyMultiProblemSplit (segment_problems text pageNum)

/-! ### RE_PARAGRAPH from document_map.py (the paragraph-header pattern) -/

/-- One character of the regex class [.,backslash-s]. -/
def headDotCommaWs : Str → Bool
  | c :: _ => c = '.' || c = ',' || pySpace c
  | [] => false

/-- First alternative of RE_PARAGRAPH: optional whitespace, a section sign or
dollar sign, optional whitespace, digits with an optional fractional part
(greedy, with backtracking on the dot), then one [.,whitespace] character. -/
def reParagraphAlt1 (s : Str) : Bool :=
  let s := eatWs0 s
  match s with
  | c :: r =>
    if c = '§' || c = '$' then
      let r := eatWs0 r
      match eatDigits1 r with
      | some (_, r2) =>
        (match r2 with
         | '.' :: r3 =>
           (match eatDigits1 r3 with
            | some (_, r4) => headDotCommaWs r4 || headDotCommaWs r2
            | none => headDotCommaWs r2)
         | _ => headDotCommaWs r2)
      | none => false
    else false
  | [] => false

/-- Second alternative of RE_PARAGRAPH: optional whitespace, the word
"Параграф" (case-insensitive), optional whitespace, digits, then one
[.,whitespace] character. -/
def reParagraphAlt2 (s : Str) : Bool :=
  match eatLit "параграф".data (eatWs0 s) with
  | some r =>
    (match eatDigits1 (eatWs0 r) with
     | some (_, r2) => headDotCommaWs r2
     | none => false)
  | none => false

/-- RE_PARAGRAPH.match: does the paragraph-header pattern match at the start
of the line. -/
def reParagraphMatch (s : Str) : Bool :=
  reParagraphAlt1 s || reParagraphAlt2 s

/-- The first line of a problem text (everything before the first newline). -/
def firstLine (s : Str) : Str := s.takeWhile (fun c => c != '\n')

/-! ### The regression invariant of segment_problems (claim C3) -/

/-- A problem record whose opening line matched one of the problem-start
patterns. -/
def okProblem (p : SegProblem) : Prop :=
  (problemStartNumber (firstLine p.text)).isSome = true

/-- The shape of the current_problem accumulator: an opening line that
matched a problem-start pattern, followed by newline-separated continuation
text. -/
def openedBuf (cp : Str) : Prop :=
  ∃ s0 r, cp = s0 ++ r ∧ (problemStartNumber s0).isSome = true ∧ '\n' ∉ s0 ∧
    strip s0 = s0 ∧ s0 ≠ [] ∧ (r = [] ∨ ∃ r2, r = '\n' :: r2)

/-- The state-machine invariant: all flushed problems opened on a
pattern-matching line, and so did the current accumulator. -/
def segInv (st : SegState) : Prop :=
  (∀ p ∈ st.problems, okProblem p) ∧
  ∀ cp, st.currentProblem = some cp → openedBuf cp

/-! ## Claim C3: paragraph-header lines vs problem starts -/

/-- A line that matches the paragraph-header pattern RE_PARAGRAPH and also
contains a problem-start marker (the numero pattern). -/
def headerProblemLine : Str := "§7. Задача № 101 про сумму углов треугольника".data

/-! ## Claim C2: two numbered sentences on one line -/

/-- The specification's own example of two "N. "-prefixed sentences on one
physical line. -/
def twoSentenceLine : Str := "1. Найдите x. 2. Докажите y.".data

/-! ## segmentation/answers.py: parse_answers_from_text and linking -/

/-- Upper-casing (Latin a-z and Cyrillic а-я, ё), for Python str.upper(). -/
def pyUpper (c : Char) : Char :=
  if 97 ≤ c.toNat && c.toNat ≤ 122 then Char.ofNat (c.toNat - 32)
  else if 0x430 ≤ c.toNat && c.toNat ≤ 0x44F then Char.ofNat (c.toNat - 0x20)
  else if c.toNat = 0x451 then Char.ofNat 0x401
  else c

/-- Is the needle a prefix of the haystack (character-exact). -/
def startsWith : Str → Str → Bool
  | [], _ => true
  | _, [] => false
  | n :: nt, c :: ct => n = c && startsWith nt ct

/-- Python "needle in haystack" substring test. -/
def containsSub (needle : Str) : Str → Bool
  | [] => startsWith needle []
  | s@(_ :: t) => startsWith needle s || containsSub needle t

/-- Python s.rstrip(".,;"). -/
def rstripPunct (s : Str) : Str :=
  (s.reverse.dropWhile (fun c => c = '.' || c = ',' || c = ';')).reverse

/-- _skip_header_line from answers.py. -/
def skipHeaderLine (line : Str) : Bool :=
  let s := strip line
  if s.isEmpty then true
  else if containsSub "ОТВЕТЫ".data (s.map pyUpper) &&
          containsSub "УКАЗАНИЯ".data (s.map pyUpper) then true
  else if startsWith "Ответы".data s && containsSub "указания".data (s.map pyLower) then true
  else false

/-- RE_PARAGRAPH_HEADER of answers.py, full-line: a section/dollar/S sign,
optional whitespace, a (possibly fractional) captured number, then only
[.whitespace,] characters to the end of the line. -/
def reAnswerParagraphHeader (s : Str) : Option Str :=
  match s with
  | [] => none
  | c :: r =>
    if c = '§' || c = '$' || pyLower c = 's' then
      match eatDigits1 (eatWs0 r) with
      | none => none
      | some (d, rest) =>
        let capres : Str × Str :=
          match rest with
          | '.' :: r3 =>
            (match eatDigits1 r3 with
             | some (d2, r4) => (d ++ '.' :: d2, r4)
             | none => (d, rest))
          | _ => (d, rest)
        if capres.2.all (fun x => x = '.' || x = ',' || pySpace x) then some capres.1
        else none
    else none

/-- RE_INLINE_PARAGRAPH matched at one position: the captured number and the
remainder of the string after the match end (with backtracking of the
fractional part against the final [.whitespace,] character). -/
def inlineParaAt (s : Str) : Option (Str × Str) :=
  match s with
  | [] => none
  | c :: r =>
    if c = '§' || c = '$' || pyLower c = 's' then
      match eatDigits1 (eatWs0 r) with
      | none => none
      | some (d, rest) =>
        let tryShort : Option (Str × Str) :=
          match rest with
          | x :: r2 => if x = '.' || x = ',' || pySpace x then some (d, r2) else none
          | [] => none
        (match rest with
         | '.' :: r3 =>
           (match eatDigits1 r3 with
            | some (d2, r4) =>
              (match r4 with
               | x :: r5 =>
                 if x = '.' || x = ',' || pySpace x then some (d ++ '.' :: d2, r5)
                 else tryShort
               | [] => tryShort)
            | none => tryShort)
         | _ => tryShort)
    else none

/-- re.search for RE_INLINE_PARAGRAPH: leftmost match, returning the capture
and the tail of the string after the match end. -/
def inlineParaSearch : Str → Option (Str × Str)
  | [] => inlineParaAt []
  | s@(_ :: t) =>
    match inlineParaAt s with
    | some r => some r
    | none => inlineParaSearch t

/-- RE_ANSWER_NUM matched at one position (no digit immediately before it):
captured number, rest after the match (digits, optional fraction with
backtracking, optional whitespace, a dot or closing paren, optional
whitespace). -/
def answerNumMatchAt (prevDigit : Bool) (s : Str) : Option (Str × Str) :=
  if prevDigit then none
  else
    match eatDigits1 s with
    | none => none
    | some (d, rest) =>
      let tail : Str → Option Str := fun x =>
        match eatWs0 x with
        | c :: r2 => if c = '.' || c = ')' then some (eatWs0 r2) else none
        | [] => none
      let short : Option (Str × Str) :=
        match tail rest with
        | some r => some (d, r)
        | none => none
      (match rest with
       | '.' :: r3 =>
         (match eatDigits1 r3 with
          | some (d2, r4) =>
            (match tail r4 with
             | some r => some (d ++ '.' :: d2, r)
             | none => short)
          | none => short)
       | _ => short)

/-- re.split by RE_ANSWER_NUM: the flat parts list
[text0, group1, text1, group2, text2, ...] (always of odd length). -/
def ansSplitGo : Nat → Bool → Str → List Str
  | 0, _, s => [s]
  | _ + 1, _, [] => [[]]
  | fuel + 1, prevDigit, s@(c :: t) =>
    match answerNumMatchAt prevDigit s with
    | some (cap, rest) =>
      match ansSplitGo fuel false rest with
      | t1 :: more => [] :: cap :: t1 :: more
      | [] => [[], cap, rest]
    | none =>
      match ansSplitGo fuel (pyDigit c) t with
      | t1 :: more => (c :: t1) :: more
      | [] => [[c]]

/-- The parts list of RE_ANSWER_NUM.split(stripped). -/
def ansSplit (s : Str) : List Str := ansSplitGo (s.length + 1) false s

/-- One parsed answer record {number, answer_text, section}. -/
structure AnsItem where
  number : Str
  answerText : Str
  sectionLabel : Option Str
deriving DecidableEq, Repr

/-- The accumulator state of parse_answers_from_text. -/
structure AnsState where
  result : List AnsItem
  currentSection : Option Str
  currentNumber : Option Str
  currentAnswer : List Str
deriving DecidableEq, Repr

/-- flush_answer of parse_answers_from_text. -/
def flushAnswer (st : AnsState) : AnsState :=
  let res :=
    match st.currentNumber with
    | some num =>
      if st.currentAnswer.isEmpty then st.result
      else
        let ans := rstripPunct (strip (joinSep " ".data st.currentAnswer))
        if ans.length > 0 then
          st.result ++ [⟨num, ans.take 2000, st.currentSection⟩]
        else st.result
    | none => st.result
  { result := res, currentSection := st.currentSection,
    currentNumber := none, currentAnswer := [] }

/-- The while loop over the split parts (index steps of two); returns the
collected answers, the final index, and last_num. -/
def ansWhile (parts : List Str) (sec : Option Str) :
    Nat → Nat → Option Str → List AnsItem → List AnsItem × Nat × Option Str
  | 0, i, lastNum, acc => (acc, i, lastNum)
  | fuel + 1, i, lastNum, acc =>
    if i + 1 < parts.length then
      let num := strip (parts.getD i [])
      let seg := rstripPunct (strip (parts.getD (i + 1) []))
      let lastNum' := if num.isEmpty then lastNum else some num
      let acc' := if !num.isEmpty && !seg.isEmpty then
          acc ++ [⟨num, seg.take 2000, sec⟩]
        else acc
      ansWhile parts sec fuel (i + 2) lastNum' acc'
    else (acc, i, lastNum)

/-- The numbered-line part of the per-line loop body (from the split on). -/
def ansLineRest (st : AnsState) (stripped : Str) : AnsState :=
  let parts := ansSplit stripped
  if parts.length = 1 then
    if st.currentNumber.isSome then
      { st with currentAnswer := st.currentAnswer ++ [stripped] }
    else st
  else
    let st1 :=
      if st.currentNumber.isSome && !(strip (parts.getD 0 [])).isEmpty then
        { st with currentAnswer := st.currentAnswer ++ [strip (parts.getD 0 [])] }
      else st
    let st2 := flushAnswer st1
    let lp := ansWhile parts st2.currentSection parts.length 1 none []
    let st3 := { st2 with result := st2.result ++ lp.1 }
    if lp.2.1 < parts.length && !(strip (parts.getD lp.2.1 [])).isEmpty
        && lp.2.2.isSome then
      { st3 with currentNumber := lp.2.2,
                 currentAnswer := [strip (parts.getD lp.2.1 [])] }
    else
      { st3 with currentNumber := none, currentAnswer := [] }

/-- The per-line loop body of parse_answers_from_text. -/
def ansLine (st : AnsState) (line : Str) : AnsState :=
  let stripped := strip line
  if skipHeaderLine line then st
  else if stripped.isEmpty then
    (if st.currentNumber.isSome then
      { st with currentAnswer := st.currentAnswer ++ [[]] }
     else st)
  else
    match reAnswerParagraphHeader stripped with
    | some num =>
      let st1 := flushAnswer st
      { st1 with currentSection := some num }
    | none =>
      match inlineParaSearch stripped with
      | some (num, after) =>
        let st1 := { st with currentSection := some num }
        let stripped2 := strip after
        if stripped2.isEmpty then st1 else ansLineRest st1 stripped2
      | none => ansLineRest st stripped

/-- parse_answers_from_text (answers.py lines 33-123). -/
def parse_answers_from_text (text : Str) : List AnsItem :=
  if text.isEmpty || (strip text).isEmpty then []
  else
    let st := (splitLines text).foldl ansLine ⟨[], none, none, []⟩
    (flushAnswer st).result

/-! ### The stored-problem model (models.py Problem) and answer linking -/

/-- A stored Problem row (content fields of models.py Problem). -/
structure Problem where
  id : Nat
  bookId : Nat
  sourcePageId : Option Nat
  number : Option Str
  sectionLabel : Option Str
  problemText : Str
  problemTextClean : Option Str
  solutionText : Option Str
  answerText : Option Str
  pageRef : Option Str
  problemType : Str
  hasParts : Bool
  confidence : Option Nat
  needsReview : Bool
deriving DecidableEq, Repr

/-- SQL "answer_text IS NULL OR answer_text = ''". -/
def answerEmptyish (p : Problem) : Bool :=
  p.answerText = none || p.answerText = some []

/-- The filter of the preferred query: book, number, empty answer, and — when
a section was parsed — the normalized section label. -/
def linkFilter (bookId : Nat) (number : Str) (secVal : Option Str) (p : Problem) : Bool :=
  p.bookId = bookId && p.number = some number && answerEmptyish p &&
    (match secVal with
     | some sv => p.sectionLabel = some sv
     | none => true)

/-- query(...).first() followed by the in-place update of answer_text: set
the answer of the first problem passing the filter, or report none found. -/
def linkUpdate (flt : Problem → Bool) (ans : Str) : List Problem → Option (List Problem)
  | [] => none
  | p :: rest =>
    if flt p then some ({ p with answerText := some ans } :: rest)
    else
      match linkUpdate flt ans rest with
      | some rest2 => some (p :: rest2)
      | none => none

/-- One iteration of the linking loop of link_answers_to_problems: prefer the
section-qualified query, fall back to (book, number) alone. -/
def linkOne (bookId : Nat) (db : List Problem) (item : AnsItem) : List Problem :=
  let number := strip item.number
  let answerText := strip item.answerText
  let sec := strip (item.sectionLabel.getD [])
  if number.isEmpty || answerText.isEmpty then db
  else
    let secVal : Option Str :=
      if sec.isEmpty then none
      else if startsWith "§".data sec then some sec
      else some ('§' :: sec)
    match linkUpdate (linkFilter bookId number secVal) (answerText.take 2000) db with
    | some db2 => db2
    | none =>
      match linkUpdate (linkFilter bookId number none) (answerText.take 2000) db with
      | some db2 => db2
      | none => db

/-- link_answers_to_problems (answers.py lines 151-201): fold the linking
step over the parsed answers. Only the stored problems change; the
updated/not_found counters do not affect them. -/
def link_answers_to_problems (bookId : Nat) (db : List Problem)
    (answers : List AnsItem) : List Problem :=
  answers.foldl (linkOne bookId) db

/-! ## ocr_cleaner.py: fix_math_symbols and fix_hyphenation (claim C9) -/

/-- Python str.replace(old, new): all non-overlapping occurrences, left to
right (all MATH_FIXES keys are nonempty). -/
def strReplaceGo (old new : Str) : Nat → Str → Str
  | 0, s => s
  | _ + 1, [] => []
  | fuel + 1, s@(c :: t) =>
    if startsWithExact old s then new ++ strReplaceGo old new fuel (s.drop old.length)
    else c :: strReplaceGo old new fuel t
where
  /-- Exact (case-sensitive) prefix test. -/
  startsWithExact : Str → Str → Bool
    | [], _ => true
    | _, [] => false
    | n :: nt, c :: ct => n = c && startsWithExact nt ct

def strReplace (s old new : Str) : Str := strReplaceGo old new (s.length + 1) s

/-- The MATH_FIXES table of ocr_cleaner.py, in dict insertion order. -/
def mathFixesTable : List (Str × Str) :=
  [("градусов".data, "°".data), ("градуса".data, "°".data),
   ("градус ".data, "° ".data), ("° °".data, "°".data),
   ("m2".data, "m²".data), ("м2".data, "м²".data),
   ("cm2".data, "см²".data), ("см2".data, "см²".data),
   ("m3".data, "m³".data), ("м3".data, "м³".data),
   ("cm3".data, "см³".data), ("см3".data, "см³".data),
   ("1/2".data, "½".data), ("1/3".data, "⅓".data),
   ("1/4".data, "¼".data), ("3/4".data, "¾".data),
   ("<=".data, "≤".data), (">=".data, "≥".data),
   ("!=".data, "≠".data), ("+-".data, "±".data),
   ("~=".data, "≈".data),
   ("<ABC".data, "∠ABC".data), ("<АВС".data, "∠АВС".data),
   ("/_".data, "∠".data), ("||".data, "∥".data), ("_|_".data, "⊥".data)]

/-- Uppercase Cyrillic А-Я (the class of the "@ to Q" context fix). -/
def isUpperCyr (c : Char) : Bool := 0x410 ≤ c.toNat && c.toNat ≤ 0x42F

/-- re.sub of the pattern "uppercase Cyrillic followed by at sign" replacing
the at sign by Q. -/
def fixAtQ : Nat → Str → Str
  | 0, s => s
  | _ + 1, [] => []
  | fuel + 1, c :: t =>
    match t with
    | '@' :: rest =>
      if isUpperCyr c then c :: 'Q' :: fixAtQ fuel rest
      else c :: fixAtQ fuel t
    | _ => c :: fixAtQ fuel t

/-- fix_math_symbols (ocr_cleaner.py lines 235-247): the MATH_FIXES
replacements in order, then the two literal question-mark artifact fixes,
then the at-sign fix. -/
def fix_math_symbols (text : Str) : Str :=
  let t1 := mathFixesTable.foldl (fun s pr => strReplace s pr.1 pr.2) text
  let t2 := strReplace t1 "m?".data "m³".data
  let t3 := strReplace t2 "м?".data "м³".data
  fixAtQ (t3.length + 1) t3

/-- Python regex word class (Latin letters, digits, underscore, and the
Cyrillic block). -/
def pyWord (c : Char) : Bool :=
  (65 ≤ c.toNat && c.toNat ≤ 90) || (97 ≤ c.toNat && c.toNat ≤ 122) ||
  (48 ≤ c.toNat && c.toNat ≤ 57) || c = '_' ||
  (0x400 ≤ c.toNat && c.toNat ≤ 0x4FF)

/-- First substitution of fix_hyphenation: word, hyphen, whitespace run
containing a newline, word — joined. -/
def hyphNlGo : Nat → Str → Str
  | 0, s => s
  | _ + 1, [] => []
  | fuel + 1, s@(c :: t) =>
    let r1 := s.takeWhile pyWord
    if r1.isEmpty then c :: hyphNlGo fuel t
    else
      let after := s.drop r1.length
      match after with
      | '-' :: a2 =>
        let w := a2.takeWhile pySpace
        if '\n' ∈ w then
          let a3 := a2.drop w.length
          let r2 := a3.takeWhile pyWord
          if r2.isEmpty then r1 ++ hyphNlGo fuel after
          else r1 ++ r2 ++ hyphNlGo fuel (a3.drop r2.length)
        else r1 ++ hyphNlGo fuel after
      | _ => r1 ++ hyphNlGo fuel after

/-- Second substitution of fix_hyphenation: word, hyphen, nonempty
whitespace run, word — joined. -/
def hyphWsGo : Nat → Str → Str
  | 0, s => s
  | _ + 1, [] => []
  | fuel + 1, s@(c :: t) =>
    let r1 := s.takeWhile pyWord
    if r1.isEmpty then c :: hyphWsGo fuel t
    else
      let after := s.drop r1.length
      match after with
      | '-' :: a2 =>
        let w := a2.takeWhile pySpace
        if w.isEmpty then r1 ++ hyphWsGo fuel after
        else
          let a3 := a2.drop w.length
          let r2 := a3.takeWhile pyWord
          if r2.isEmpty then r1 ++ hyphWsGo fuel after
          else r1 ++ r2 ++ hyphWsGo fuel (a3.drop r2.length)
      | _ => r1 ++ hyphWsGo fuel after

/-- fix_hyphenation (ocr_cleaner.py lines 137-143). -/
def fix_hyphenation (text : Str) : Str :=
  let t1 := hyphNlGo (text.length + 1) text
  hyphWsGo (t1.length + 1) t1

/-- The claim C9 input showing math-symbol canonicalization is not
idempotent: replacing the degree-pair key consumes overlapping pairs. -/
def degreeTriple : Str := "° ° °".data

/-- The claim C9 input showing hyphenation repair is not idempotent:
re.sub skips overlapping matches, so a chain needs a second pass. -/
def hyphenChain : Str := "a- b- c".data

/-! ## llm_ocr_correct.py: checkpointed LLM correction (claims C4, C5, C10)

The OpenAI client is an oracle (a function from the user prompt to an
optional response; none models a raised exception), cancel_check is a
predicate on the polled batch index, and the checkpoint file is an explicit
optional value threaded through the run. Loops over distinct indices are
written as mapIdx / set-folds. -/

/-- Decimal digits of a page number (for the "## Страница N" headers). -/
def natStr (n : Nat) : Str := Nat.toDigits 10 n

/-- int() of a digit string. -/
def digitsVal (s : Str) : Nat := s.foldl (fun acc c => acc * 10 + (c.toNat - 48)) 0

/-- The checkpoint JSON: the "done" list and the per-page corrected texts. -/
structure Checkpoint where
  done : Finset Nat
  texts : Nat → Option Str

/-- _save_checkpoint: the done set plus the stored text of every done page
within bounds. -/
def save_checkpoint (result : List Str) (done : Finset Nat) : Checkpoint :=
  ⟨done, fun i => if i ∈ done ∧ i < result.length then some (result.getD i []) else none⟩

/-- _load_checkpoint (llm_ocr_correct.py lines 74-94). -/
def load_checkpoint (file : Option Checkpoint) (total : Nat) (pts : List Str) :
    List Str × Finset Nat :=
  match file with
  | none => (List.replicate total [], ∅)
  | some cp =>
    let done := cp.done.filter (· < total)
    let step1 : Nat → Str := fun i =>
      match cp.texts i with
      | some t => if !t.isEmpty then t else (if i ∉ done then pts.getD i [] else [])
      | none => if i ∉ done then pts.getD i [] else []
    let result := (List.range total).map (fun i =>
      let r := step1 i
      if r.isEmpty then pts.getD i [] else r)
    (result, done)

/-- PAGE_HEADER.match on a stripped line: "## Страница N" with nothing else. -/
def pageHeaderParse (line : Str) : Option Nat :=
  match strip line with
  | '#' :: '#' :: r =>
    (match eatWs1 r with
     | some r2 =>
       (match eatLit "страница".data r2 with
        | some r3 =>
          (match eatWs1 r3 with
           | some r4 =>
             (match eatDigits1 r4 with
              | some (d, r5) =>
                if (eatWs0 r5).isEmpty then some (digitsVal d) else none
              | none => none)
           | none => none)
        | none => none)
     | none => none)
  | _ => none

/-- _parse_pages_from_response (lines 42-59). -/
def parse_pages_from_response (content : Str) : List (Nat × Str) :=
  let fin := (splitLines content).foldl
    (fun (st : Option Nat × List Str × List (Nat × Str)) line =>
      match pageHeaderParse line with
      | some n =>
        (match st.1 with
         | some p => (some n, [], st.2.2 ++ [(p, strip (joinSep "\n".data st.2.1))])
         | none => (some n, [], st.2.2))
      | none =>
        (match st.1 with
         | some _ => (st.1, st.2.1 ++ [line], st.2.2)
         | none => st))
    (none, [], [])
  match fin.1 with
  | some p => fin.2.2 ++ [(p, strip (joinSep "\n".data fin.2.1))]
  | none => fin.2.2

/-- One "## Страница N" header line for 0-based page index i. -/
def pageHeaderLine (i : Nat) : Str := "## Страница ".data ++ natStr (i + 1)

/-- The chunk sent to the LLM for the given page indices (lines 206-212). -/
def buildChunk (pts : List Str) (indices : List Nat) : Str :=
  rstrip (joinSep "\n".data (indices.flatMap (fun i =>
    [pageHeaderLine i, [], strip (pts.getD i []), []])))

/-- The user message around the chunk (line 224). -/
def userContent (subject chunk : Str) : Str :=
  "Предмет: ".data ++ subject ++ ".\n\nИсходный текст (блоки страниц):\n\n".data ++ chunk

/-- The fill loop "empty results fall back to the input page text"
(lines 176-178 and 259-261). -/
def fillEmpty (pts result : List Str) : List Str :=
  result.mapIdx (fun i r => if r.isEmpty ∧ i < pts.length then pts.getD i [] else r)

/-- The configuration of one correct_normalized_pages run. -/
structure CorrectConfig where
  pageTexts : List Str
  subject : Str
  batchSize : Nat
  llm : Str → Option Str
  cancel : Nat → Bool
  qualityScores : Option (List ℚ)
  gateThreshold : ℚ

/-- The mutable state of the batch loop. -/
structure CorrectState where
  result : List Str
  done : Finset Nat
  calls : List (List Nat × Str)
  cpFile : Option Checkpoint

/-- The outcome of a run: the returned list (none when LLMCancelRequested
was raised), the issued LLM calls, and the final checkpoint file. -/
structure RunOut where
  output : Option (List Str)
  calls : List (List Nat × Str)
  cpFile : Option Checkpoint

/-- The need_llm_set of the quality gate (lines 156-158). -/
def needLLMSet (cfg : CorrectConfig) (total : Nat) : Finset Nat :=
  match cfg.qualityScores with
  | some qs =>
    if qs.length = total then
      (Finset.range total).filter (fun i => qs.getD i 0 < cfg.gateThreshold)
    else Finset.range total
  | none => Finset.range total

/-- One iteration of the batch loop (lines 173-257): Except.error carries the
state at the LLMCancelRequested raise. -/
def processBatch (cfg : CorrectConfig) (needLLM : Finset Nat) (total : Nat)
    (hasCpPath : Bool) (st : CorrectState) (b : Nat) :
    Except CorrectState CorrectState :=
  if cfg.cancel b then
    let result2 := fillEmpty cfg.pageTexts st.result
    let cp2 := if hasCpPath then some (save_checkpoint result2 st.done) else st.cpFile
    .error ⟨result2, st.done, st.calls, cp2⟩
  else
    let start := b * cfg.batchSize
    let endIdx := min (start + cfg.batchSize) total
    let batchIs := List.range' start (endIdx - start)
    if hasCpPath ∧ batchIs.all (· ∈ st.done) then .ok st
    else
      let indices := batchIs.filter (fun i => i ∈ needLLM ∧ i ∉ st.done)
      let result1 := st.result.mapIdx (fun i r =>
        if start ≤ i ∧ i < endIdx ∧ i ∉ needLLM then cfg.pageTexts.getD i [] else r)
      let done1 := st.done ∪ (Finset.Ico start endIdx).filter (· ∉ needLLM)
      if indices.isEmpty then .ok ⟨result1, done1, st.calls, st.cpFile⟩
      else
        let chunk := buildChunk cfg.pageTexts indices
        if (strip chunk).isEmpty then
          let result2 := result1.mapIdx (fun i r =>
            if i ∈ indices then cfg.pageTexts.getD i [] else r)
          let done2 := done1 ∪ indices.toFinset
          let cp2 := if hasCpPath then some (save_checkpoint result2 done2) else st.cpFile
          .ok ⟨result2, done2, st.calls, cp2⟩
        else
          match cfg.llm (userContent cfg.subject chunk) with
          | some resp =>
            let parsed := parse_pages_from_response (strip resp)
            let result2 := parsed.foldl (fun (res : List Str) pr =>
              if 1 ≤ pr.1 ∧ pr.1 - 1 < res.length then res.set (pr.1 - 1) pr.2 else res)
              result1
            let result3 := result2.mapIdx (fun i r =>
              if i ∈ indices ∧ r.isEmpty ∧ i < cfg.pageTexts.length then
                cfg.pageTexts.getD i [] else r)
            let done2 := done1 ∪ indices.toFinset
            let cp2 := if hasCpPath then some (save_checkpoint result3 done2) else st.cpFile
            .ok ⟨result3, done2, st.calls ++ [(indices, chunk)], cp2⟩
          | none =>
            let result2 := result1.mapIdx (fun i r =>
              if i ∈ indices then cfg.pageTexts.getD i [] else r)
            let cp2 := if hasCpPath then some (save_checkpoint result2 done1) else st.cpFile
            .ok ⟨result2, done1, st.calls ++ [(indices, chunk)], cp2⟩

/-- The batch loop over the given batch indices. -/
def correctLoop (cfg : CorrectConfig) (needLLM : Finset Nat) (total : Nat)
    (hasCpPath : Bool) : List Nat → CorrectState → Except CorrectState CorrectState
  | [], st => .ok st
  | b :: bs, st =>
    match processBatch cfg needLLM total hasCpPath st b with
    | .ok st2 => correctLoop cfg needLLM total hasCpPath bs st2
    | .error st2 => .error st2

/-- The initial (result, done) pair: loaded from the checkpoint when a
checkpoint path is supplied, else a copy of the inputs with nothing done. -/
def initResult (cfg : CorrectConfig) (hasCpPath : Bool)
    (cpFile0 : Option Checkpoint) : List Str × Finset Nat :=
  if hasCpPath then load_checkpoint cpFile0 cfg.pageTexts.length cfg.pageTexts
  else ((List.range cfg.pageTexts.length).map (fun i => cfg.pageTexts.getD i []), ∅)

/-- The batch count (total + batch_size - 1) // batch_size. -/
def totalBatchesOf (total bs : Nat) : Nat := (total + bs - 1) / bs

/-- correct_normalized_pages (llm_ocr_correct.py lines 104-268).
apiAvailable models the OPENAI_API_KEY / import guards; hasCpPath whether a
checkpoint_path was supplied; cpFile0 the checkpoint file found there. -/
def correct_normalized_pages (cfg : CorrectConfig) (apiAvailable : Bool)
    (hasCpPath : Bool) (cpFile0 : Option Checkpoint) : RunOut :=
  if cfg.pageTexts.isEmpty then ⟨some cfg.pageTexts, [], cpFile0⟩
  else if !apiAvailable then ⟨some cfg.pageTexts, [], cpFile0⟩
  else
    let total := cfg.pageTexts.length
    match correctLoop cfg (needLLMSet cfg total) total hasCpPath
        (List.range (totalBatchesOf total cfg.batchSize))
        ⟨(initResult cfg hasCpPath cpFile0).1, (initResult cfg hasCpPath cpFile0).2,
          [], cpFile0⟩ with
    | .error st => ⟨none, st.calls, st.cpFile⟩
    | .ok st =>
      ⟨some (fillEmpty cfg.pageTexts st.result), st.calls,
        if hasCpPath then none else st.cpFile⟩

/-! ### Behavioural characterization of the batch loop (for claims C4/C5/C10)

With the checkpoint path supplied, no cancellation at the polled batch and a
total LLM oracle, one batch's effect on the done-set and the call log is a
pure function of the previous done-set. -/

/-- The page indices of batch b. -/
def batchList (bs total b : Nat) : List Nat :=
  List.range' (b * bs) (min (b * bs + bs) total - b * bs)

/-- The done-set after processing batch b from a given done-set (checkpoint
path supplied, LLM call succeeding). -/
def doneStep (need : Finset Nat) (bs total : Nat) (b : Nat)
    (done : Finset Nat) : Finset Nat :=
  if (batchList bs total b).all (· ∈ done) then done
  else
    let done1 := done ∪ (Finset.Ico (b * bs) (min (b * bs + bs) total)).filter (· ∉ need)
    let indices := (batchList bs total b).filter (fun i => i ∈ need ∧ i ∉ done)
    if indices.isEmpty then done1 else done1 ∪ indices.toFinset

/-- The LLM calls issued by batch b from a given done-set (same conditions). -/
def callsStep (need : Finset Nat) (bs total : Nat) (pts : List Str)
    (b : Nat) (done : Finset Nat) : List (List Nat × Str) :=
  if (batchList bs total b).all (· ∈ done) then []
  else
    let indices := (batchList bs total b).filter (fun i => i ∈ need ∧ i ∉ done)
    if indices.isEmpty then []
    else if (strip (buildChunk pts indices)).isEmpty then []
    else [(indices, buildChunk pts indices)]

/-- The done-set of an uninterrupted run after c batches (empty start). -/
def doneAfter (need : Finset Nat) (bs total : Nat) : Nat → Finset Nat
  | 0 => ∅
  | c + 1 => doneStep need bs total c (doneAfter need bs total c)

/-- The calls of batches b, b+1, ..., b+k-1 of an uninterrupted run. -/
def callsSeg (need : Finset Nat) (bs total : Nat) (pts : List Str) :
    Nat → Nat → List (List Nat × Str)
  | _, 0 => []
  | b, k + 1 =>
    callsStep need bs total pts b (doneAfter need bs total b) ++
      callsSeg need bs total pts (b + 1) k

/-- A concrete configuration exercising C10's hypothesis. -/
def c10cfg : CorrectConfig :=
  ⟨["аб".data], "алгебра".data, 2, fun _ => none, fun _ => false, none, 0⟩

/-- A concrete base configuration for the C4 witness: two pages, batch size
one, a total LLM oracle, and the cancel check firing from batch 0 on. -/
def c4pts : List Str := ["аб".data, "вг".data]

/-! ## Claim C6: answer linking is a guarded frame update -/

/-- The frame relation of answer linking: same number of problems, each
changed at most in answer_text, and a problem whose answer_text was already
non-empty is identical. -/
def linkFrame (db db2 : List Problem) : Prop :=
  db2.length = db.length ∧
  ∀ i p q, db.get? i = some p → db2.get? i = some q →
    q = { p with answerText := q.answerText } ∧ (answerEmptyish p = false → q = p)

/-- The stored problem of the claim C6 witness: its answer_text is already
non-empty. -/
def problemWithAnswer : Problem :=
  ⟨1, 7, none, some "5".data, none, "Найдите угол.".data, none, none,
   some "старый ответ".data, none, "unknown".data, false, some 60, false⟩

/-- The failing input of claim C7: a numbered answer line followed by a
continuation line without a marker. -/
def continuationInput : Str := "5. Ответ длинный здесь\nпродолжение ответа".data

/-! ## ingestion.py: LLM-distribution import (claims C1 and C8)

The function import_from_normalized_file_llm is embedded over a database value
with session semantics: the run works on a copy, every "return error /
cancelled" path of the Python leaves the persisted value untouched (no
commit), db.flush() points may fail through the flushOk oracle (modelling a
database error raised mid-write, handled by the rollback in the except
block), and the single db.commit() at the end is the only point where the
new state becomes the persisted one. distribute_batches is an oracle
outcome: cancelled (ImportDBCancelRequested), failed (any other exception),
or a parsed block list. -/

/-- Python `(x or "").strip() or None`. -/
def orNone (s : Str) : Option Str := if s.isEmpty then none else some s

/-- A pdf_pages row (fields touched by the import). -/
structure PdfPageR where
  id : Nat
  pdfSourceId : Nat
  pageNum : Nat
  ocrText : Str
deriving DecidableEq, Repr

/-- A problem_parts row (problem_id has ondelete CASCADE). -/
structure ProblemPartR where
  problemId : Nat
  partNumber : Str
  partText : Option Str
  answerText : Option Str
  solutionText : Option Str
deriving DecidableEq, Repr

/-- A section_theory row. -/
structure SectionTheoryR where
  bookId : Nat
  sectionLabel : Str
  theoryText : Str
deriving DecidableEq, Repr

/-- A pdf_sources row. -/
structure PdfSourceR where
  id : Nat
  bookId : Nat
  status : Str
deriving DecidableEq, Repr

/-- The persisted database state: the five touched tables plus the id
sequence handed out at flush. -/
structure DB where
  sources : List PdfSourceR
  pages : List PdfPageR
  problems : List Problem
  parts : List ProblemPartR
  theories : List SectionTheoryR
  nextId : Nat
deriving DecidableEq, Repr

/-- One entry of a block's "parts" list that is a dict. -/
structure PartEntry where
  partNumber : Option Str
  partText : Option Str
  answerText : Option Str
  solutionText : Option Str
deriving DecidableEq, Repr

/-- One entry of an answers_block's "answers" list that is a dict. -/
structure AnswerEntry where
  number : Option Str
  answerText : Option Str
deriving DecidableEq, Repr

/-- A parsed LLM block (the dict shape read by the import; none in parts /
answers models a value that is absent or not a list, none in a list models
an entry that is not a dict). -/
structure Block where
  btype : Option Str
  sectionLabel : Option Str
  theoryText : Option Str
  problemText : Option Str
  solutionText : Option Str
  answerText : Option Str
  number : Option Str
  pageNum : Option Nat
  parts : Option (List (Option PartEntry))
  answers : Option (List (Option AnswerEntry))
deriving DecidableEq, Repr

/-- The outcome of distribute_batches. -/
inductive DistribOutcome where
  | cancelled
  | failed
  | ok (blocks : List Block)
deriving DecidableEq, Repr

/-- The status field of the returned dict. -/
inductive ImportStatus where
  | success
  | error
  | cancelled
deriving DecidableEq, Repr

/-- The full-rewrite delete block (ingestion.py lines 743-747): problems of
this source's pages (their parts go via ondelete CASCADE), the source's
pages, and the book's section theory. -/
def deletePhase (db : DB) (srcId bookId : Nat) : DB :=
  let existingIds := (db.pages.filter (fun p => p.pdfSourceId = srcId)).map (·.id)
  let deletedProblemIds := (db.problems.filter (fun pr =>
    match pr.sourcePageId with
    | some pid => decide (pid ∈ existingIds)
    | none => false)).map (·.id)
  { db with
    problems := db.problems.filter (fun pr =>
      match pr.sourcePageId with
      | some pid => !decide (pid ∈ existingIds)
      | none => true),
    parts := db.parts.filter (fun pt => !decide (pt.problemId ∈ deletedProblemIds)),
    pages := db.pages.filter (fun p => p.pdfSourceId ≠ srcId),
    theories := db.theories.filter (fun th => th.bookId ≠ bookId) }

/-- dict assignment page_num_to_id[k] = v. -/
def pmapInsert (pmap : List (Nat × Nat)) (k v : Nat) : List (Nat × Nat) :=
  match pmap with
  | [] => [(k, v)]
  | (k0, v0) :: rest =>
    if k0 = k then (k0, v) :: rest else (k0, v0) :: pmapInsert rest k v

/-- dict .get. -/
def pmapGet (pmap : List (Nat × Nat)) (k : Nat) : Option Nat :=
  (pmap.find? (fun e => e.1 = k)).map (·.2)

/-- next(iter(dict.values()), None). -/
def pmapFirstVal (pmap : List (Nat × Nat)) : Option Nat :=
  pmap.head?.map (·.2)

/-- The pdf_pages reinsert loop (lines 751-762): add + flush per page, the
dict page_num_to_id collecting the assigned ids. -/
def insertPagesGo (srcId : Nat) (flushOk : Nat → Bool) :
    List (Nat × Str) → DB → List (Nat × Nat) → Nat →
    Except Unit (DB × List (Nat × Nat) × Nat)
  | [], db, pmap, fc => .ok (db, pmap, fc)
  | (n1, text) :: rest, db, pmap, fc =>
    if flushOk fc then
      insertPagesGo srcId flushOk rest
        { db with
          pages := db.pages ++ [⟨db.nextId, srcId, n1 - 1, text⟩],
          nextId := db.nextId + 1 }
        (pmapInsert pmap n1 db.nextId) (fc + 1)
    else .error ()

/-- dict grouping theory_by_section[sec].append(text). -/
def addTheory (acc : List (Str × List Str)) (sec : Str) (txt : Str) :
    List (Str × List Str) :=
  match acc with
  | [] => [(sec, [txt])]
  | (s, ts) :: rest =>
    if s = sec then (s, ts ++ [txt]) :: rest else (s, ts) :: addTheory rest sec txt

/-- The theory grouping loop (lines 765-780). -/
def theoryBySection (parsed : List Block) : List (Str × List Str) :=
  parsed.foldl (fun acc b =>
    let t := (b.btype.getD []).map pyLower
    if t ≠ "section_theory".data ∧ t ≠ "theory".data then acc
    else
      let sec0 := strip (b.sectionLabel.getD [])
      if sec0.isEmpty then acc
      else
        let tt := strip (b.theoryText.getD [])
        if tt.isEmpty then acc
        else
          let sec := if sec0.headD ' ' = '§' then sec0 else '§' :: lstrip sec0
          addTheory acc sec tt) []

/-- The SectionTheory insert loop (lines 782-786): joined text, skipped
below 30 characters. -/
def insertTheories (db : DB) (bookId : Nat) (groups : List (Str × List Str)) : DB :=
  groups.foldl (fun db g =>
    let tt := strip (joinSep "\n\n".data g.2)
    if tt.length < 30 then db
    else { db with theories := db.theories ++ [⟨bookId, g.1, tt⟩] }) db

/-- The ProblemPart inserts of one problem block (lines 832-845): non-dict
entries and entries whose stripped part_number and part_text are both empty
are skipped; part_number falls back to "?". -/
def partsFor (pid : Nat) : List (Option PartEntry) → List ProblemPartR
  | [] => []
  | it :: rest =>
    match it with
    | none => partsFor pid rest
    | some e =>
      let pn := orNone (strip (e.partNumber.getD []))
      let pt := orNone (strip (e.partText.getD []))
      if pn = none ∧ pt = none then partsFor pid rest
      else ⟨pid, pn.getD "?".data, pt,
        orNone (strip (e.answerText.getD [])),
        orNone (strip (e.solutionText.getD []))⟩ :: partsFor pid rest

/-- The solution_only attachment to the last added problem (lines 793-801). -/
def applySolutionOnly (db : DB) (lastId : Nat) (sol ans : Str) : DB :=
  { db with problems := db.problems.map (fun pr =>
      if pr.id = lastId then
        let pr1 := if sol.isEmpty then pr else
          { pr with solutionText :=
              match pr.solutionText with
              | none => some sol
              | some s => if s.isEmpty then some sol
                  else some (s ++ "\n\n".data ++ sol) }
        if ¬ans.isEmpty ∧ (pr1.answerText = none ∨ pr1.answerText = some []) then
          { pr1 with answerText := some ans }
        else pr1
      else pr) }

/-- The problems loop (lines 789-846): solution_only attaches to the last
added problem, problem blocks insert a Problem (flush assigns its id) and
its parts. -/
def insertProblemsGo (bookId : Nat) (pmap : List (Nat × Nat)) (flushOk : Nat → Bool) :
    List Block → DB → Option Nat → Nat → Except Unit (DB × Option Nat × Nat)
  | [], db, last, fc => .ok (db, last, fc)
  | b :: rest, db, last, fc =>
    let t := (b.btype.getD []).map pyLower
    if t = "solution_only".data then
      let sol := strip (b.solutionText.getD [])
      let ans := strip (b.answerText.getD [])
      match last with
      | some lastId =>
        if ¬sol.isEmpty ∨ ¬ans.isEmpty then
          insertProblemsGo bookId pmap flushOk rest
            (applySolutionOnly db lastId sol ans) last fc
        else insertProblemsGo bookId pmap flushOk rest db last fc
      | none => insertProblemsGo bookId pmap flushOk rest db last fc
    else if t ≠ "problem".data then insertProblemsGo bookId pmap flushOk rest db last fc
    else
      let ptext := strip (b.problemText.getD [])
      if ptext.isEmpty then insertProblemsGo bookId pmap flushOk rest db last fc
      else
        let pn1 := match b.pageNum with | some n => if n = 0 then 1 else n | none => 1
        let spid : Option Nat :=
          match pmapGet pmap pn1 with
          | some v => if v = 0 then pmapFirstVal pmap else some v
          | none => pmapFirstVal pmap
        let sec0 := strip (b.sectionLabel.getD [])
        let sec : Option Str :=
          if sec0.isEmpty then none
          else if sec0.headD ' ' = '§' then some sec0
          else some ('§' :: lstrip sec0)
        let hasParts := match b.parts with | some l => !l.isEmpty | none => false
        if flushOk fc then
          let newParts := if hasParts then partsFor db.nextId (b.parts.getD []) else []
          insertProblemsGo bookId pmap flushOk rest
            { db with
              problems := db.problems ++
                [⟨db.nextId, bookId, spid, b.number, sec, ptext, none,
                  orNone (strip (b.solutionText.getD [])),
                  orNone (strip (b.answerText.getD [])),
                  some ("стр. ".data ++ natStr pn1), "unknown".data, hasParts,
                  some 70, false⟩],
              parts := db.parts ++ newParts,
              nextId := db.nextId + 1 }
            (some db.nextId) (fc + 1)
        else .error ()

/-- query(Problem).filter(book_id, number).first() followed by the guarded
answer write (lines 862-864). -/
def setAnswerFirst (probs : List Problem) (bookId : Nat) (num ans : Str) :
    List Problem :=
  match probs with
  | [] => []
  | pr :: rest =>
    if pr.bookId = bookId ∧ pr.number = some num then
      (if pr.answerText = none ∨ pr.answerText = some [] then
        { pr with answerText := some ans }
      else pr) :: rest
    else pr :: setAnswerFirst rest bookId num ans

/-- One answers_block's item loop (lines 855-864). -/
def applyAnswersItems (bookId : Nat) :
    List (Option AnswerEntry) → List Problem → List Problem
  | [], probs => probs
  | it :: rest, probs =>
    match it with
    | none => applyAnswersItems bookId rest probs
    | some e =>
      match orNone (strip (e.number.getD [])), orNone (strip (e.answerText.getD [])) with
      | some n, some a => applyAnswersItems bookId rest (setAnswerFirst probs bookId n a)
      | _, _ => applyAnswersItems bookId rest probs

/-- The answers_block loop (lines 849-864). -/
def answersPhase (db : DB) (bookId : Nat) (parsed : List Block) : DB :=
  { db with problems := parsed.foldl (fun probs b =>
      if (b.btype.getD []).map pyLower = "answers_block".data then
        match b.answers with
        | some items => applyAnswersItems bookId items probs
        | none => probs
      else probs) db.problems }

/-- import_from_normalized_file_llm (ingestion.py lines 683-881): the
deletes happen only after distribution succeeded, any flush failure hits
the except/rollback path, and only the final arm commits the rewritten
state. -/
def import_from_normalized_file_llm (db0 : DB) (pdfSourceId : Nat)
    (fileExists : Bool) (pagesData : List (Nat × Str)) (dist : DistribOutcome)
    (flushOk : Nat → Bool) : ImportStatus × DB :=
  match db0.sources.find? (fun s => s.id = pdfSourceId) with
  | none => (.error, db0)
  | some src =>
    let bookId := src.bookId
    if ¬fileExists then (.error, db0)
    else if pagesData.isEmpty then (.error, db0)
    else
      match dist with
      | .cancelled => (.cancelled, db0)
      | .failed => (.error, db0)
      | .ok parsed =>
        if parsed.isEmpty then (.error, db0)
        else
          let s1 := deletePhase db0 pdfSourceId bookId
          if ¬flushOk 0 then (.error, db0)
          else
            match insertPagesGo pdfSourceId flushOk pagesData s1 [] 1 with
            | .error _ => (.error, db0)
            | .ok (s2, pmap, fc) =>
              let s3 := insertTheories s2 bookId (theoryBySection parsed)
              match insertProblemsGo bookId pmap flushOk parsed s3 none fc with
              | .error _ => (.error, db0)
              | .ok (s4, _, _) =>
                let s5 := answersPhase s4 bookId parsed
                (.success,
                  { s5 with sources := s5.sources.map (fun s =>
                      if s.id = pdfSourceId then { s with status := "done".data }
                      else s) })

/-- A database with one source, pages, problems, parts and theory rows, for
the C1 witness. -/
def c1db : DB :=
  ⟨[⟨1, 1, "pending".data⟩], [⟨5, 1, 0, "текст".data⟩],
    [⟨6, 1, some 5, some "7".data, none, "Задача".data, none, none, none, none,
      "unknown".data, true, some 70, false⟩],
    [⟨6, "1".data, some "часть".data, none, none⟩],
    [⟨1, "§1".data, "теория".data⟩], 10⟩

/-! ### Claim C8: has_parts implies at least one ProblemPart -/

/-- The claimed invariant: every stored problem flagged has_parts owns at
least one problem_parts row. -/
def partsInv (db : DB) : Prop :=
  ∀ pr ∈ db.problems, pr.hasParts = true → ∃ pt ∈ db.parts, pt.problemId = pr.id

/-- A parts-list entry is a dict with a non-empty stripped part_number or
part_text — exactly the entries the insert loop does not skip. -/
def goodPartsItem (it : Option PartEntry) : Bool :=
  match it with
  | none => false
  | some e =>
    !(strip (e.partNumber.getD [])).isEmpty || !(strip (e.partText.getD [])).isEmpty

/-- The blocks carried by a distribution outcome. -/
def blocksOf : DistribOutcome → List Block
  | .ok bl => bl
  | _ => []

/-- The C8 input: a problem block whose "parts" list holds one entry that is
not a dict. -/
def c8block : Block :=
  ⟨some "problem".data, none, none, some "Задача".data, none, none, none, none,
    some [none], none⟩

/-- An initially empty database with one source, for the C8 runs. -/
def c8db : DB := ⟨[⟨1, 1, "pending".data⟩], [], [], [], [], 10⟩

/-- The shape a field update preserves: id and has_parts. -/
def probShape (a b : Problem) : Prop := b.id = a.id ∧ b.hasParts = a.hasParts

/-- The C8 witness input: a problem block whose single parts entry is a dict
with a non-empty part_number and part_text. -/
def c8goodblock : Block :=
  ⟨some "problem".data, none, none, some "Задача".data, none, none,
    some "3".data, none, some [some ⟨some "1".data, some "часть".data, none, none⟩],
    none⟩

/-! ## Theorems -/

/-! ### Basic facts about the string primitives -/

lemma dropWhile_length_le (p : Char → Bool) (s : Str) :
    (s.dropWhile p).length ≤ s.length :=
  (List.dropWhile_sublist p).length_le

lemma rstrip_isPrefixOf (s : Str) : rstrip s <+: s := by
  have h : List.dropWhile pySpace s.reverse <:+ s.reverse := List.dropWhile_suffix pySpace
  have h2 := List.reverse_prefix.mpr h
  simpa [rstrip] using h2

lemma rstrip_length_le (s : Str) : (rstrip s).length ≤ s.length :=
  (rstrip_isPrefixOf s).length_le

lemma lstrip_eq_of_strip_eq {s : Str} (h : strip s = s) : lstrip s = s := by
  have h1 : (lstrip s).length ≤ s.length := dropWhile_length_le _ _
  have h2 : (strip s).length ≤ (lstrip s).length := rstrip_length_le _
  have h3 : (lstrip s).length = s.length := by
    rw [h] at h2; omega
  exact (List.dropWhile_suffix pySpace).eq_of_length h3

lemma rstrip_eq_of_strip_eq {s : Str} (h : strip s = s) : rstrip s = s := by
  have h1 := lstrip_eq_of_strip_eq h
  have : strip s = rstrip s := by rw [strip, h1]
  rw [← this, h]

lemma lstrip_cons_not_space {c : Char} {t : Str} (h : pySpace c = false) :
    lstrip (c :: t) = c :: t := by
  simp [lstrip, List.dropWhile_cons, h]

lemma lstrip_cons_space {c : Char} {t : Str} (h : pySpace c = true) :
    lstrip (c :: t) = lstrip t := by
  simp [lstrip, List.dropWhile_cons, h]

/-- A nonempty string equal to its own strip starts with a non-space char. -/
lemma strip_head_not_space {s : Str} (h : strip s = s) (hne : s ≠ []) :
    ∃ c t, s = c :: t ∧ pySpace c = false := by
  match s, hne with
  | c :: t, _ =>
    refine ⟨c, t, rfl, ?_⟩
    by_contra hc
    have hc' : pySpace c = true := by
      cases hsp : pySpace c with
      | false => exact absurd hsp hc
      | true => rfl
    have h1 := lstrip_eq_of_strip_eq h
    rw [lstrip_cons_space hc'] at h1
    have := dropWhile_length_le pySpace t
    have hlen := congrArg List.length h1
    simp [lstrip] at hlen
    omega

lemma rstrip_append (a b : Str) :
    rstrip (a ++ b) = if rstrip b = [] then rstrip a else a ++ rstrip b := by
  unfold rstrip
  rw [List.reverse_append, List.dropWhile_append]
  by_cases hb : List.dropWhile pySpace b.reverse = []
  · simp [hb]
  · have : (List.dropWhile pySpace b.reverse).isEmpty = false := by
      cases hdw : List.dropWhile pySpace b.reverse with
      | nil => exact absurd hdw hb
      | cons x xs => simp
    simp [this, hb]

/-- A nonempty rstrip keeps the head of the string. -/
lemma rstrip_head {c : Char} {t : Str} (h : rstrip (c :: t) ≠ []) :
    ∃ t2, rstrip (c :: t) = c :: t2 := by
  have hp := rstrip_isPrefixOf (c :: t)
  match hrs : rstrip (c :: t), h with
  | x :: xs, _ =>
    rw [hrs] at hp
    obtain ⟨r, hr⟩ := hp
    cases hr
    exact ⟨xs, rfl⟩

lemma dropWhile_idem (p : Char → Bool) (s : Str) :
    List.dropWhile p (List.dropWhile p s) = List.dropWhile p s := by
  induction s with
  | nil => rfl
  | cons c t ih =>
    by_cases hc : p c = true
    · simp [List.dropWhile_cons, hc, ih]
    · simp [List.dropWhile_cons, hc]

lemma rstrip_idem (s : Str) : rstrip (rstrip s) = rstrip s := by
  unfold rstrip
  rw [List.reverse_reverse, dropWhile_idem]

/-- The head of a nonempty lstrip is a non-space character. -/
lemma lstrip_head {s t : Str} {c : Char} (h : lstrip s = c :: t) :
    pySpace c = false := by
  induction s with
  | nil => simp [lstrip] at h
  | cons a as ih =>
    by_cases ha : pySpace a = true
    · rw [lstrip_cons_space ha] at h; exact ih h
    · have ha' : pySpace a = false := by
        cases hsp : pySpace a with
        | false => rfl
        | true => exact absurd hsp ha
      rw [lstrip_cons_not_space ha'] at h
      injection h with h1 _
      rw [← h1]; exact ha'

/-- The head of a nonempty strip is a non-space character. -/
lemma strip_head {s t : Str} {c : Char} (h : strip s = c :: t) :
    pySpace c = false := by
  rcases hl : lstrip s with _ | ⟨a, as⟩
  · rw [strip, hl] at h; simp [rstrip] at h
  · have hns := lstrip_head hl
    rw [strip, hl] at h
    have hrs : rstrip (a :: as) ≠ [] := by rw [h]; simp
    obtain ⟨t2, ht2⟩ := rstrip_head hrs
    rw [h] at ht2
    injection ht2 with h1 _
    rw [h1]; exact hns

lemma strip_idem (s : Str) : strip (strip s) = strip s := by
  rcases hx : strip s with _ | ⟨c, t⟩
  · rfl
  · have hcs : pySpace c = false := strip_head hx
    have h1 : lstrip (c :: t) = c :: t := lstrip_cons_not_space hcs
    calc strip (c :: t) = rstrip (lstrip (c :: t)) := rfl
    _ = rstrip (c :: t) := by rw [h1]
    _ = rstrip (rstrip (lstrip s)) := by rw [← hx]; rfl
    _ = rstrip (lstrip s) := rstrip_idem _
    _ = c :: t := hx

lemma strip_sublist (s : Str) : (strip s).Sublist s :=
  ((rstrip_isPrefixOf (lstrip s)).sublist).trans (List.dropWhile_sublist pySpace)

lemma firstLine_cons (c : Char) (t : Str) :
    firstLine (c :: t) = if c = '\n' then [] else c :: firstLine t := by
  by_cases h : c = '\n' <;> simp [firstLine, List.takeWhile_cons, h]

lemma firstLine_of_no_nl {a : Str} (h : '\n' ∉ a) : firstLine a = a := by
  induction a with
  | nil => rfl
  | cons c t ih =>
    have hc : ¬ c = '\n' := fun hh => h (hh ▸ List.mem_cons_self c t)
    rw [firstLine_cons, if_neg hc, ih (fun hh => h (List.mem_cons_of_mem c hh))]

lemma firstLine_append_nl {a : Str} (h : '\n' ∉ a) (r : Str) :
    firstLine (a ++ '\n' :: r) = a := by
  induction a with
  | nil => simp [firstLine_cons]
  | cons c t ih =>
    have hc : ¬ c = '\n' := fun hh => h (hh ▸ List.mem_cons_self c t)
    rw [List.cons_append, firstLine_cons, if_neg hc,
        ih (fun hh => h (List.mem_cons_of_mem c hh))]

lemma splitLines_ne_nil (s : Str) : splitLines s ≠ [] := by
  induction s with
  | nil => simp [splitLines]
  | cons c t ih =>
    unfold splitLines
    by_cases hc : c = '\n'
    · simp [hc]
    · rcases hsp : splitLines t with _ | ⟨h1, r⟩
      · exact absurd hsp ih
      · simp [hc, hsp]

lemma splitLines_no_nl {s : Str} : ∀ l ∈ splitLines s, '\n' ∉ l := by
  induction s with
  | nil =>
    intro l hl
    simp [splitLines] at hl
    simp [hl]
  | cons c t ih =>
    intro l hl
    unfold splitLines at hl
    by_cases hc : c = '\n'
    · rw [if_pos hc] at hl
      rcases List.mem_cons.mp hl with h | h
      · simp [h]
      · exact ih l h
    · rw [if_neg hc] at hl
      rcases hsp : splitLines t with _ | ⟨h1, r⟩
      · exact absurd hsp (splitLines_ne_nil t)
      · rw [hsp] at hl
        rcases List.mem_cons.mp hl with h | h
        · subst h
          intro hmem
          rcases List.mem_cons.mp hmem with h | h
          · exact hc h.symm
          · exact ih h1 (hsp ▸ List.mem_cons_self h1 r) h
        · exact ih l (hsp ▸ List.mem_cons_of_mem h1 h)

lemma splitLines_of_no_nl {s : Str} (h : '\n' ∉ s) : splitLines s = [s] := by
  induction s with
  | nil => rfl
  | cons c t ih =>
    have hc : ¬ c = '\n' := fun hh => h (hh ▸ List.mem_cons_self c t)
    unfold splitLines
    rw [if_neg hc, ih (fun hh => h (List.mem_cons_of_mem c hh))]

lemma openedBuf_strip {cp : Str} (h : openedBuf cp) :
    (problemStartNumber (firstLine (strip cp))).isSome = true := by
  obtain ⟨s0, r, hcp, hnum, hnl, hstr, hne, hr⟩ := h
  obtain ⟨c, t, hs0, hcsp⟩ := strip_head_not_space hstr hne
  have hl : lstrip (s0 ++ r) = s0 ++ r := by
    rw [hs0, List.cons_append]
    exact lstrip_cons_not_space hcsp
  have hstrip_cp : strip cp = rstrip (s0 ++ r) := by
    rw [hcp, strip, hl]
  rw [hstrip_cp, rstrip_append]
  by_cases hrr : rstrip r = []
  · rw [if_pos hrr, rstrip_eq_of_strip_eq hstr, firstLine_of_no_nl hnl]
    exact hnum
  · rw [if_neg hrr]
    rcases hr with hr | ⟨r2, hr2⟩
    · rw [hr] at hrr; exact absurd rfl hrr
    · subst hr2
      obtain ⟨t2, ht2⟩ := rstrip_head hrr
      rw [ht2, firstLine_append_nl hnl]
      exact hnum

lemma openedBuf_append {cp : Str} (h : openedBuf cp) (x : Str) :
    openedBuf (cp ++ '\n' :: x) := by
  obtain ⟨s0, r, hcp, hnum, hnl, hstr, hne, hr⟩ := h
  refine ⟨s0, r ++ '\n' :: x, by rw [hcp, List.append_assoc], hnum, hnl, hstr, hne, ?_⟩
  rcases hr with hr | ⟨r2, hr2⟩
  · subst hr; exact Or.inr ⟨x, rfl⟩
  · subst hr2; exact Or.inr ⟨r2 ++ '\n' :: x, rfl⟩

lemma attachSolution_ok {probs : List SegProblem} {sl : List Str}
    (h : ∀ p ∈ probs, okProblem p) :
    ∀ p ∈ attachSolution probs sl, okProblem p := by
  intro p hp
  unfold attachSolution at hp
  by_cases hsol : (strip (joinSep "\n".data (sl.filter (fun s => !s.isEmpty)))).isEmpty = true
  · rw [if_pos hsol] at hp; exact h p hp
  · rw [if_neg hsol] at hp
    rcases hrev : probs.reverse with _ | ⟨last, front⟩
    · rw [hrev] at hp; exact h p hp
    · rw [hrev] at hp
      have hlast : last ∈ probs := by
        rw [← List.mem_reverse, hrev]; exact List.mem_cons_self _ _
      rw [List.mem_reverse, List.mem_cons] at hp
      rcases hp with hp | hp
      · subst hp
        have := h last hlast
        simpa [okProblem] using this
      · refine h p ?_
        rw [← List.mem_reverse, hrev]
        exact List.mem_cons_of_mem _ hp

lemma flushCurrent_ok {st : SegState} (hinv : segInv st) :
    ∀ p ∈ flushCurrent st, okProblem p := by
  intro p hp
  unfold flushCurrent at hp
  rcases hcp : st.currentProblem with _ | cp
  · rw [hcp] at hp; exact hinv.1 p hp
  · rw [hcp] at hp
    have hp2 : p ∈ (if cp.length > 20 then
        st.problems ++ [⟨st.currentNumber, strip cp, none, 60⟩] else st.problems) := hp
    by_cases hl : cp.length > 20
    · rw [if_pos hl] at hp2
      rcases List.mem_append.mp hp2 with h | h
      · exact hinv.1 p h
      · rcases List.mem_singleton.mp h with rfl
        exact openedBuf_strip (hinv.2 cp hcp)
    · rw [if_neg hl] at hp2; exact hinv.1 p hp2

lemma segFinal_ok {st : SegState} (hinv : segInv st) :
    ∀ p ∈ segFinal st, okProblem p := by
  intro p hp
  unfold segFinal at hp
  have hprobs : ∀ q ∈ (match st.solutionLines with
      | some sl => if st.problems.isEmpty then st.problems
                   else attachSolution st.problems sl
      | none => st.problems), okProblem q := by
    rcases hsl : st.solutionLines with _ | sl
    · exact hinv.1
    · show ∀ q ∈ (if st.problems.isEmpty = true then st.problems
          else attachSolution st.problems sl), okProblem q
      by_cases hpe : st.problems.isEmpty = true
      · rw [if_pos hpe]; exact hinv.1
      · rw [if_neg hpe]; exact attachSolution_ok hinv.1
  exact @flushCurrent_ok
    ⟨(match st.solutionLines with
      | some sl => if st.problems.isEmpty then st.problems
                   else attachSolution st.problems sl
      | none => st.problems), st.currentProblem, st.currentNumber, st.solutionLines⟩
    ⟨hprobs, fun cp hcp => hinv.2 cp hcp⟩ p hp

lemma segLine_inv {st : SegState} {line : Str} (hline : '\n' ∉ line)
    (h : segInv st) : segInv (segLine st line) := by
  have hstripnl : '\n' ∉ strip line := fun hmem => hline ((strip_sublist line).subset hmem)
  simp only [segLine]
  by_cases hemp : (strip line).isEmpty = true
  · rw [if_pos hemp]
    by_cases htr : (truthyStr st.currentProblem && st.solutionLines.isNone) = true
    · rw [if_pos htr]
      refine ⟨h.1, ?_⟩
      intro cp' hcp'
      simp only [Option.map_eq_some'] at hcp'
      obtain ⟨cp, hcp, hcpeq⟩ := hcp'
      subst hcpeq
      exact openedBuf_append (h.2 cp hcp) _
    · rw [if_neg htr]
      rcases hsl : st.solutionLines with _ | sl
      · exact h
      · exact ⟨h.1, h.2⟩
  · rw [if_neg hemp]
    by_cases hsolst : solutionStart (strip line) = true
    · rw [if_pos hsolst]
      exact ⟨flushCurrent_ok h, by intro cp hcp; exact absurd hcp (by simp)⟩
    · rw [if_neg hsolst]
      rcases hnum : problemStartNumber (strip line) with _ | number
      · rcases hsl : st.solutionLines with _ | sl
        · rcases hcp : st.currentProblem with _ | cp
          · exact h
          · refine ⟨h.1, ?_⟩
            intro cp' hcp'
            simp only [Option.some.injEq] at hcp'
            subst hcp'
            exact openedBuf_append (h.2 cp hcp) _
        · exact ⟨h.1, h.2⟩
      · have hprobs : ∀ p ∈ (match st.solutionLines with
            | some sl => if st.problems.isEmpty then st.problems
                         else attachSolution st.problems sl
            | none => st.problems), okProblem p := by
          rcases hsl : st.solutionLines with _ | sl
          · exact h.1
          · show ∀ p ∈ (if st.problems.isEmpty = true then st.problems
                else attachSolution st.problems sl), okProblem p
            by_cases hpe : st.problems.isEmpty = true
            · rw [if_pos hpe]; exact h.1
            · rw [if_neg hpe]; exact attachSolution_ok h.1
        refine ⟨?_, ?_⟩
        · exact flushCurrent_ok ⟨hprobs, h.2⟩
        · intro cp' hcp'
          simp only [Option.some.injEq] at hcp'
          subst hcp'
          refine ⟨strip line, [], (List.append_nil _).symm, ?_, hstripnl, strip_idem line, ?_, Or.inl rfl⟩
          · rw [hnum]; rfl
          · intro hnil
            rw [hnil] at hemp
            simp at hemp

lemma foldl_segLine_inv {lines : List Str} (hlines : ∀ l ∈ lines, '\n' ∉ l)
    {st : SegState} (h : segInv st) : segInv (lines.foldl segLine st) := by
  induction lines generalizing st with
  | nil => exact h
  | cons l ls ih =>
    exact ih (fun x hx => hlines x (List.mem_cons_of_mem l hx))
      (segLine_inv (hlines l (List.mem_cons_self l ls)) h)

/-! ### Digit-headed lines are not solution starts -/

lemma digit_toNat {c : Char} (h : pyDigit c = true) :
    48 ≤ c.toNat ∧ c.toNat ≤ 57 := by
  simpa [pyDigit] using h

lemma pySpace_of_digit {c : Char} (h : pyDigit c = true) : pySpace c = false := by
  obtain ⟨h1, h2⟩ := digit_toNat h
  simp [pySpace]
  omega

lemma pyLower_of_digit {c : Char} (h : pyDigit c = true) : pyLower c = c := by
  obtain ⟨h1, h2⟩ := digit_toNat h
  unfold pyLower
  rw [if_neg (by simp; omega), if_neg (by simp; omega), if_neg (by omega)]

lemma solutionStart_digit {c : Char} {t : Str} (hc : pyDigit c = true) :
    solutionStart (c :: t) = false := by
  have hsp := pySpace_of_digit hc
  have hlow := pyLower_of_digit hc
  obtain ⟨h1, h2⟩ := digit_toNat hc
  have hner : ¬ pyLower c = 'р' := by
    rw [hlow]; intro heq
    rw [heq] at hc
    exact absurd hc (by decide)
  have hneo : ¬ pyLower c = 'о' := by
    rw [hlow]; intro heq
    rw [heq] at hc
    exact absurd hc (by decide)
  have h0 : eatWs0 (c :: t) = c :: t := by
    simp [eatWs0, List.dropWhile_cons, hsp]
  unfold solutionStart
  rw [h0]
  unfold wordReshenie wordOtvet spacedLit
  simp [eatLit, hner, hneo]

/-! ### RE_NUM_DOT facts -/

lemma numDotGo_pos_le :
    ∀ (fuel : Nat) (s : Str) (pos : Nat) m, m ∈ numDotGo fuel s pos → pos ≤ m.1 := by
  intro fuel
  induction fuel with
  | zero => intro s pos m hm; simp [numDotGo] at hm
  | succ n ih =>
    intro s pos m hm
    match s with
    | [] => simp [numDotGo] at hm
    | c :: t =>
      rw [numDotGo] at hm
      rcases hmt : numDotMatchAt (c :: t) with _ | ⟨d, k⟩
      · rw [hmt] at hm
        have := ih t (pos + 1) m hm
        omega
      · rw [hmt] at hm
        rcases List.mem_cons.mp hm with h | h
        · subst h; simp
        · have := ih _ (pos + k) m h
          omega

lemma finditer_head_matchAt {t n1 : Str} {e1 : Nat}
    {rest : List (Nat × Str × Nat)}
    (h : numDotFinditer t = (0, n1, e1) :: rest) :
    numDotMatchAt t = some (n1, e1) := by
  unfold numDotFinditer at h
  match t with
  | [] => simp [numDotGo] at h
  | c :: tt =>
    rw [numDotGo] at h
    rcases hmt : numDotMatchAt (c :: tt) with _ | ⟨d, k⟩
    · simp only [hmt] at h
      have hmem : ((0 : Nat), n1, e1) ∈ numDotGo ((c :: tt).length) tt (0 + 1) := by
        rw [h]
        exact List.mem_cons_self _ _
      have := numDotGo_pos_le _ _ _ _ hmem
      simp at this
    · simp only [hmt] at h
      have h0 := List.head_eq_of_cons_eq h
      simp only [Prod.mk.injEq] at h0
      rw [h0.2.1, ← h0.2.2]
      norm_num

lemma matchAt_head_digit {s d : Str} {k : Nat}
    (h : numDotMatchAt s = some (d, k)) :
    ∃ c t, s = c :: t ∧ pyDigit c = true := by
  match s with
  | [] => simp [numDotMatchAt, eatDigits1] at h
  | c :: t =>
    refine ⟨c, t, rfl, ?_⟩
    by_contra hc
    have hc' : pyDigit c = false := by
      cases hh : pyDigit c with
      | false => rfl
      | true => exact absurd hh hc
    simp [numDotMatchAt, eatDigits1, List.takeWhile_cons, hc'] at h

lemma matchAt_anchored {t n1 : Str} {e1 : Nat}
    (h : numDotMatchAt t = some (n1, e1)) : patAnchoredDot t = some n1 := by
  unfold numDotMatchAt at h
  unfold patAnchoredDot
  rcases hd : eatDigits1 t with _ | ⟨d, r⟩
  · simp [hd] at h
  · rcases hch : eatChar '.' r with _ | r2
    · simp [hd, hch] at h
    · simp only [hd, hch, Option.bind_eq_bind, Option.some_bind] at h ⊢
      by_cases hws : (r2.takeWhile pySpace).isEmpty = true
      · rw [if_pos hws] at h
        exact Option.noConfusion h
      · rw [if_neg hws] at h
        simp only [Option.pure_def, Option.some.injEq, Prod.mk.injEq] at h
        rcases hr2 : r2 with _ | ⟨w, ws⟩
        · rw [hr2] at hws
          exact absurd rfl hws
        · have hw : pySpace w = true := by
            by_contra hwc
            have hwf : pySpace w = false := by
              cases hh : pySpace w with
              | false => rfl
              | true => exact absurd hh hwc
            rw [hr2] at hws
            simp [List.takeWhile_cons, hwf] at hws
          simp [eatWs1, hr2, hw, h.1]

lemma firstSome_of_mem {l : List (Option Str)} {x : Str}
    (h : some x ∈ l) : ∃ y, firstSome l = some y := by
  induction l with
  | nil => simp at h
  | cons a t ih =>
    rcases a with _ | b
    · rcases List.mem_cons.mp h with h1 | h1
      · exact absurd h1 (by simp)
      · simpa [firstSome] using ih h1
    · exact ⟨b, rfl⟩

/-- Claim C3 is falsified at a concrete input: this line matches the
paragraph-header pattern, yet it opens (and is emitted as) a problem, whose
text therefore starts with the paragraph-header marker; the multi-problem
splitter keeps it unchanged. -/
theorem C3_counterexample :
    reParagraphMatch headerProblemLine = true
    ∧ segment_problems headerProblemLine 0 =
        [⟨some "101".data, headerProblemLine, none, 60⟩]
    ∧ segmentThenSplit headerProblemLine 0 =
        [⟨some "101".data, headerProblemLine, none, 60⟩] := by
  refine ⟨by decide, by decide, by decide⟩

/-- Claim C3 amended: only lines matching a problem-start pattern open a
problem (the opening line of every emitted problem matched one), and a pure
paragraph-header line — the marker alone, as in the spec's examples — matches
no problem-start pattern and yields no problem; but a line matching the
paragraph-header pattern may open a problem when it also contains a
problem-start marker (see the counterexample). -/
theorem C3_amended :
    (∀ text pageNum p, p ∈ segment_problems text pageNum →
        (problemStartNumber (firstLine p.text)).isSome = true)
    ∧ problemStartNumber "§7.".data = none
    ∧ problemStartNumber "Параграф 7.".data = none
    ∧ segment_problems ("§7.\nПараграф 7.".data) 0 = [] := by
  refine ⟨?_, by decide, by decide, by decide⟩
  intro text pageNum p hp
  unfold segment_problems at hp
  split at hp
  · exact absurd hp (List.not_mem_nil p)
  · have hinv : segInv ((splitLines text).foldl segLine ⟨[], none, none, none⟩) :=
      foldl_segLine_inv (fun l hl => splitLines_no_nl l hl)
        ⟨fun q hq => absurd hq (List.not_mem_nil q),
         fun cp hcp => Option.noConfusion hcp⟩
    exact segFinal_ok hinv p hp

/-- Witness for the amended claim C3 at a concrete input. -/
theorem C3_witness :
    (problemStartNumber (firstLine
      (⟨some "5".data,
        "Задача 5. Найдите периметр квадрата со стороной 4 см.".data,
        none, 60⟩ : SegProblem).text)).isSome = true :=
  C3_amended.1 "Задача 5. Найдите периметр квадрата со стороной 4 см.".data 0
    ⟨some "5".data, "Задача 5. Найдите периметр квадрата со стороной 4 см.".data,
      none, 60⟩ (by decide)

/-- Claim C2 is falsified at the spec's own example: the line holds exactly
two "N. " markers (at positions 0 and 14), yet the engine yields ONE problem
(the splitter drops both segments because neither is longer than 15
characters and then keeps the unsplit problem). -/
theorem C2_counterexample :
    (numDotFinditer twoSentenceLine).map (fun m => (m.1, m.2.1)) =
      [(0, "1".data), (14, "2".data)]
    ∧ ('\n' ∉ twoSentenceLine)
    ∧ segmentThenSplit twoSentenceLine 0 =
        [⟨some "1".data, twoSentenceLine, none, 60⟩] := by
  refine ⟨by decide, by decide, by decide⟩

/-- Claim C2 amended: for a one-line text carrying exactly two "N. " markers,
the first at position 0, whose total length exceeds the 20-character flush
guard and both of whose marker-to-marker segments exceed the splitter's
15-character guard, the engine yields exactly the two problems, numbered in
order. -/
theorem C2_amended (t n1 n2 : Str) (p2 e1 e2 : Nat)
    (hnl : '\n' ∉ t) (hstrip : strip t = t)
    (hm : numDotFinditer t = [(0, n1, e1), (p2, n2, e2)])
    (hlen : t.length > 20)
    (hseg1 : (strip (slice t 0 p2)).length > 15)
    (hseg2 : (strip (slice t p2 t.length)).length > 15) :
    segmentThenSplit t 0 =
      [⟨some n1, strip (slice t 0 p2), none, 60⟩,
       ⟨some n2, strip (slice t p2 t.length), none, 60⟩] := by
  have hMA : numDotMatchAt t = some (n1, e1) := finditer_head_matchAt hm
  obtain ⟨c, tt, htc, hdig⟩ := matchAt_head_digit hMA
  have htnemp : t.isEmpty = false := by rw [htc]; rfl
  have hlen10 : ¬ (strip t).length < 10 := by rw [hstrip]; omega
  have hsolst : solutionStart t = false := by
    rw [htc]; exact solutionStart_digit hdig
  have hanch : patAnchoredDot t = some n1 := matchAt_anchored hMA
  obtain ⟨k, hk⟩ : ∃ k, problemStartNumber t = some k := by
    have hmem : some n1 ∈ problemStartResults t := by
      unfold problemStartResults
      rw [hanch]
      simp
    exact firstSome_of_mem hmem
  have hsegp : segment_problems t 0 = [⟨some k, t, none, 60⟩] := by
    unfold segment_problems
    rw [if_neg (by simp [htnemp, hlen10])]
    rw [splitLines_of_no_nl hnl]
    simp only [List.foldl_cons, List.foldl_nil]
    unfold segLine
    simp only [hstrip, htnemp, hsolst, hk, Bool.false_eq_true, if_false]
    simp [segFinal, flushCurrent, hstrip, hlen]
  have hsplit : split_multi_problem_line t =
      [(n1, strip (slice t 0 p2)), (n2, strip (slice t p2 t.length))] := by
    unfold split_multi_problem_line
    rw [if_neg (by simp [htnemp, hlen10])]
    simp only [hstrip, hm]
    rw [if_neg (by simp)]
    simp [buildSegs, hseg1, hseg2]
  unfold segmentThenSplit applyMultiProblemSplit
  rw [hsegp]
  simp only [List.flatMap_cons, List.flatMap_nil, List.append_nil]
  rw [hsplit]
  simp

/-- Claim C9 is falsified at a concrete input: one application of
fix_math_symbols maps "° ° °" to "° °", and a second application changes it
again to "°". -/
theorem C9_counterexample :
    fix_math_symbols degreeTriple = "° °".data
    ∧ fix_math_symbols (fix_math_symbols degreeTriple) = "°".data
    ∧ fix_math_symbols (fix_math_symbols degreeTriple) ≠
        fix_math_symbols degreeTriple := by
  refine ⟨by decide, by decide, by decide⟩

/-- Claim C9 amended: the cleanup steps are pure deterministic functions but
not all idempotent — math-symbol canonicalization and hyphenation repair
each change their own output on overlapping-pattern inputs, converging only
on a further application. -/
theorem C9_amended :
    (fix_math_symbols (fix_math_symbols degreeTriple) ≠ fix_math_symbols degreeTriple
     ∧ fix_math_symbols (fix_math_symbols (fix_math_symbols degreeTriple))
         = fix_math_symbols (fix_math_symbols degreeTriple))
    ∧ (fix_hyphenation (fix_hyphenation hyphenChain) ≠ fix_hyphenation hyphenChain
       ∧ fix_hyphenation (fix_hyphenation (fix_hyphenation hyphenChain))
           = fix_hyphenation (fix_hyphenation hyphenChain)) := by
  refine ⟨⟨by decide, by decide⟩, by decide, by decide⟩

lemma processBatch_char (cfg : CorrectConfig) (need : Finset Nat)
    (total : Nat) (st : CorrectState) (b : Nat)
    (hcancel : cfg.cancel b = false) (hllm : ∀ s, (cfg.llm s).isSome) :
    ∃ st', processBatch cfg need total true st b = .ok st'
      ∧ st'.done = doneStep need cfg.batchSize total b st.done
      ∧ st'.calls = st.calls ++ callsStep need cfg.batchSize total cfg.pageTexts b st.done := by
  simp only [processBatch, doneStep, callsStep, batchList, hcancel,
    Bool.false_eq_true, if_false, true_and]
  by_cases hall : (List.range' (b * cfg.batchSize)
      (min (b * cfg.batchSize + cfg.batchSize) total - b * cfg.batchSize)).all
      (· ∈ st.done) = true
  · simp only [hall, if_true, if_pos]
    exact ⟨st, rfl, rfl, by simp⟩
  · simp only [hall, Bool.false_eq_true, if_false]
    by_cases hind : ((List.range' (b * cfg.batchSize)
        (min (b * cfg.batchSize + cfg.batchSize) total - b * cfg.batchSize)).filter
        (fun i => i ∈ need ∧ i ∉ st.done)).isEmpty = true
    · simp only [hind, if_true]
      exact ⟨_, rfl, rfl, by simp⟩
    · simp only [hind, Bool.false_eq_true, if_false]
      by_cases hch : (strip (buildChunk cfg.pageTexts
          ((List.range' (b * cfg.batchSize)
            (min (b * cfg.batchSize + cfg.batchSize) total - b * cfg.batchSize)).filter
            (fun i => i ∈ need ∧ i ∉ st.done)))).isEmpty = true
      · simp only [hch, if_true]
        exact ⟨_, rfl, rfl, by simp⟩
      · simp only [hch, Bool.false_eq_true, if_false]
        rcases hresp : cfg.llm (userContent cfg.subject (buildChunk cfg.pageTexts
            ((List.range' (b * cfg.batchSize)
              (min (b * cfg.batchSize + cfg.batchSize) total - b * cfg.batchSize)).filter
              (fun i => i ∈ need ∧ i ∉ st.done)))) with _ | resp
        · have := hllm (userContent cfg.subject (buildChunk cfg.pageTexts
            ((List.range' (b * cfg.batchSize)
              (min (b * cfg.batchSize + cfg.batchSize) total - b * cfg.batchSize)).filter
              (fun i => i ∈ need ∧ i ∉ st.done))))
          rw [hresp] at this
          exact absurd this (by simp)
        · simp only [hresp]
          exact ⟨_, rfl, rfl, rfl⟩

/-! ### Structural lemmas for the loop state (claims C5 and C10) -/

lemma mapIdx_getElem {α β : Type} (l : List α) (f : Nat → α → β) (i : Nat)
    (h : i < l.length) (h2 : i < (l.mapIdx f).length) :
    (l.mapIdx f)[i] = f i (l[i]) := by
  simp [List.get_mapIdx l f i h]

lemma mapIdx_eq_self {α : Type} (l : List α) (f : Nat → α → α)
    (h : ∀ i, (hi : i < l.length) → f i (l[i]) = l[i]) : l.mapIdx f = l := by
  apply List.ext_getElem List.length_mapIdx
  intro i h1 h2
  rw [mapIdx_getElem l f i h2 h1]
  exact h i h2

lemma range_map_getD {α : Type} (l : List α) (d : α) :
    (List.range l.length).map (fun i => l.getD i d) = l := by
  apply List.ext_getElem (by simp)
  intro i h1 h2
  simp only [List.getElem_map, List.getElem_range]
  exact List.getD_eq_getElem l d h2

lemma fillEmpty_length (pts result : List Str) :
    (fillEmpty pts result).length = result.length := List.length_mapIdx

lemma fillEmpty_self (pts : List Str) : fillEmpty pts pts = pts := by
  apply mapIdx_eq_self
  intro i hi
  by_cases h : ((pts[i]).isEmpty = true ∧ i < pts.length)
  · rw [if_pos h]
    exact List.getD_eq_getElem pts [] hi
  · rw [if_neg h]

lemma foldl_setPages_length (parsed : List (Nat × Str)) (res : List Str) :
    (parsed.foldl (fun (res : List Str) pr =>
      if 1 ≤ pr.1 ∧ pr.1 - 1 < res.length then res.set (pr.1 - 1) pr.2 else res)
      res).length = res.length := by
  induction parsed generalizing res with
  | nil => rfl
  | cons p t ih =>
    rw [List.foldl_cons, ih]
    by_cases h : 1 ≤ p.1 ∧ p.1 - 1 < res.length
    · rw [if_pos h, List.length_set]
    · rw [if_neg h]

lemma processBatch_result_length {cfg : CorrectConfig} {need : Finset Nat}
    {total : Nat} {hasCp : Bool} {st : CorrectState} {b : Nat} {st' : CorrectState}
    (h : processBatch cfg need total hasCp st b = .ok st') :
    st'.result.length = st.result.length := by
  unfold processBatch at h
  by_cases hc : cfg.cancel b = true
  · rw [if_pos hc] at h
    exact Except.noConfusion h
  · rw [if_neg hc] at h
    simp only [] at h
    split at h
    · injection h with h
      subst h
      rfl
    · split at h
      · injection h with h
        subst h
        simp only [List.length_mapIdx]
      · split at h
        · injection h with h
          subst h
          simp only [List.length_mapIdx]
        · split at h
          · injection h with h
            subst h
            simp only [List.length_mapIdx, foldl_setPages_length]
          · injection h with h
            subst h
            simp only [List.length_mapIdx]

lemma correctLoop_result_length {cfg : CorrectConfig} {need : Finset Nat}
    {total : Nat} {hasCp : Bool} :
    ∀ {bsL : List Nat} {st st' : CorrectState},
      correctLoop cfg need total hasCp bsL st = .ok st' →
      st'.result.length = st.result.length := by
  intro bsL
  induction bsL with
  | nil =>
    intro st st' h
    unfold correctLoop at h
    injection h with h
    subst h
    rfl
  | cons b rest ih =>
    intro st st' h
    unfold correctLoop at h
    cases h2 : processBatch cfg need total hasCp st b with
    | error st2 =>
      rw [h2] at h
      exact Except.noConfusion h
    | ok st2 =>
      rw [h2] at h
      exact (ih h).trans (processBatch_result_length h2)

lemma load_checkpoint_length (file : Option Checkpoint) (total : Nat)
    (pts : List Str) : (load_checkpoint file total pts).1.length = total := by
  cases file with
  | none => simp [load_checkpoint]
  | some cp => simp [load_checkpoint]

lemma initResult_length (cfg : CorrectConfig) (hasCp : Bool)
    (cp0 : Option Checkpoint) :
    (initResult cfg hasCp cp0).1.length = cfg.pageTexts.length := by
  cases hasCp with
  | false => simp [initResult]
  | true => simp [initResult, load_checkpoint_length]

/-- **C10**: whenever correct_normalized_pages returns a list (regardless of
LLM responses, gate scores, checkpoint contents, cancellation of later
batches, or per-batch failures), that list has the length of page_texts, and
every position whose input text is non-empty holds a non-empty text. -/
theorem C10_output_shape (cfg : CorrectConfig) (api hasCp : Bool)
    (cp0 : Option Checkpoint) (out : List Str)
    (hout : (correct_normalized_pages cfg api hasCp cp0).output = some out) :
    out.length = cfg.pageTexts.length ∧
      ∀ i, i < cfg.pageTexts.length → cfg.pageTexts.getD i [] ≠ [] →
        out.getD i [] ≠ [] := by
  by_cases hem : cfg.pageTexts.isEmpty = true
  · have hpe : cfg.pageTexts = out := by
      simp [correct_normalized_pages, hem] at hout
      exact hout
    rw [← hpe]
    exact ⟨rfl, fun i _ h => h⟩
  · cases api with
    | false =>
      have hpe : cfg.pageTexts = out := by
        simp [correct_normalized_pages, hem] at hout
        exact hout
      rw [← hpe]
      exact ⟨rfl, fun i _ h => h⟩
    | true =>
      simp only [correct_normalized_pages, hem, Bool.false_eq_true, if_false,
        Bool.not_true] at hout
      cases hE : correctLoop cfg (needLLMSet cfg cfg.pageTexts.length)
          cfg.pageTexts.length hasCp
          (List.range (totalBatchesOf cfg.pageTexts.length cfg.batchSize))
          ⟨(initResult cfg hasCp cp0).1, (initResult cfg hasCp cp0).2, [], cp0⟩ with
      | error st =>
        rw [hE] at hout
        exact Option.noConfusion hout
      | ok st =>
        rw [hE] at hout
        have hfe : fillEmpty cfg.pageTexts st.result = out := by
          injection hout
        have hlen : st.result.length = cfg.pageTexts.length :=
          (correctLoop_result_length hE).trans (initResult_length cfg hasCp cp0)
        rw [← hfe]
        constructor
        · rw [fillEmpty_length]
          exact hlen
        · intro i hi hne
          have hi2 : i < st.result.length := by rw [hlen]; exact hi
          have hi3 : i < (fillEmpty cfg.pageTexts st.result).length := by
            rw [fillEmpty_length]; exact hi2
          rw [List.getD_eq_getElem _ [] hi3]
          unfold fillEmpty
          rw [mapIdx_getElem _ _ i hi2 (by rw [List.length_mapIdx]; exact hi2)]
          by_cases hcase : ((st.result[i]).isEmpty = true ∧ i < cfg.pageTexts.length)
          · rw [if_pos hcase]
            exact hne
          · rw [if_neg hcase]
            intro hnil
            exact hcase ⟨by rw [hnil]; rfl, hi⟩

/-! ### The quality gate: an empty need-set leaves the run inert (claim C5) -/

lemma processBatch_gate (cfg : CorrectConfig) (total : Nat) (d : Finset Nat)
    (b : Nat) (hc : cfg.cancel b = false) :
    ∃ d2, processBatch cfg ∅ total false ⟨cfg.pageTexts, d, [], none⟩ b =
      .ok ⟨cfg.pageTexts, d2, [], none⟩ := by
  refine ⟨d ∪ (Finset.Ico (b * cfg.batchSize)
      (min (b * cfg.batchSize + cfg.batchSize) total)).filter
      (· ∉ (∅ : Finset Nat)), ?_⟩
  have hres : cfg.pageTexts.mapIdx (fun i r =>
      if b * cfg.batchSize ≤ i ∧ i < min (b * cfg.batchSize + cfg.batchSize) total
      then cfg.pageTexts.getD i [] else r) = cfg.pageTexts := by
    apply mapIdx_eq_self
    intro i hi
    by_cases hcond : (b * cfg.batchSize ≤ i ∧
        i < min (b * cfg.batchSize + cfg.batchSize) total)
    · rw [if_pos hcond]
      exact List.getD_eq_getElem cfg.pageTexts [] hi
    · rw [if_neg hcond]
  simp only [processBatch, hc, Bool.false_eq_true, if_false, false_and,
    Finset.not_mem_empty, decide_False, List.filter_false, List.isEmpty_nil,
    if_true, not_false_eq_true, and_true, hres]

lemma correctLoop_gate (cfg : CorrectConfig) (total : Nat)
    (hc : ∀ b, cfg.cancel b = false) :
    ∀ (bsL : List Nat) (d : Finset Nat),
      ∃ d2, correctLoop cfg ∅ total false bsL ⟨cfg.pageTexts, d, [], none⟩ =
        .ok ⟨cfg.pageTexts, d2, [], none⟩ := by
  intro bsL
  induction bsL with
  | nil => intro d; exact ⟨d, rfl⟩
  | cons b rest ih =>
    intro d
    obtain ⟨d2, h2⟩ := processBatch_gate cfg total d b (hc b)
    obtain ⟨d3, h3⟩ := ih d2
    refine ⟨d3, ?_⟩
    simp only [correctLoop, h2]
    exact h3

/-- **C5**: with a quality-score list of the same length as page_texts whose
every entry is above the gate threshold, correct_normalized_pages returns its
input unchanged and issues zero LLM calls. -/
theorem C5_quality_gate (pts : List Str) (subj : Str) (bs : Nat)
    (llm : Str → Option Str) (qs : List ℚ) (thr : ℚ) (api : Bool)
    (hlen : qs.length = pts.length)
    (habove : ∀ i, i < pts.length → thr < qs.getD i 0) :
    (correct_normalized_pages ⟨pts, subj, bs, llm, fun _ => false, some qs, thr⟩
        api false none).output = some pts ∧
      (correct_normalized_pages ⟨pts, subj, bs, llm, fun _ => false, some qs, thr⟩
        api false none).calls = [] := by
  have key : correct_normalized_pages ⟨pts, subj, bs, llm, fun _ => false, some qs, thr⟩
      api false none = ⟨some pts, [], none⟩ := by
    by_cases hem : pts.isEmpty = true
    · simp [correct_normalized_pages, hem]
    · cases api with
      | false => simp [correct_normalized_pages, hem]
      | true =>
        have hneed : needLLMSet ⟨pts, subj, bs, llm, fun _ => false, some qs, thr⟩
            pts.length = ∅ := by
          have hstep : needLLMSet ⟨pts, subj, bs, llm, fun _ => false, some qs, thr⟩
              pts.length =
              if qs.length = pts.length then
                (Finset.range pts.length).filter (fun i => qs.getD i 0 < thr)
              else Finset.range pts.length := rfl
          rw [hstep, if_pos hlen]
          apply Finset.filter_false_of_mem
          intro i hi
          simp only [Finset.mem_range] at hi
          exact not_lt.mpr (le_of_lt (habove i hi))
        have hinit : initResult ⟨pts, subj, bs, llm, fun _ => false, some qs, thr⟩
            false none = (pts, ∅) := by
          have hstep : initResult ⟨pts, subj, bs, llm, fun _ => false, some qs, thr⟩
              false none = ((List.range pts.length).map (fun i => pts.getD i []), ∅) :=
            rfl
          rw [hstep, range_map_getD]
        obtain ⟨d2, hloop⟩ := correctLoop_gate
          ⟨pts, subj, bs, llm, fun _ => false, some qs, thr⟩ pts.length
          (fun _ => rfl)
          (List.range (totalBatchesOf pts.length bs)) ∅
        simp only [correct_normalized_pages, hem, Bool.false_eq_true, if_false,
          Bool.not_true, hneed, hinit]
        simp only [hloop, fillEmpty_self]
  rw [key]
  exact ⟨rfl, rfl⟩

theorem C10_witness :
    (correct_normalized_pages c10cfg false false none).output = some ["аб".data] ∧
      ((["аб".data] : List Str).length = c10cfg.pageTexts.length ∧
        ∀ i, i < c10cfg.pageTexts.length → c10cfg.pageTexts.getD i [] ≠ [] →
          (["аб".data] : List Str).getD i [] ≠ []) :=
  ⟨rfl, C10_output_shape c10cfg false false none ["аб".data] rfl⟩

theorem C5_witness :
    (([(80 : ℚ)] : List ℚ).length = (["аб".data] : List Str).length ∧
        ∀ i, i < (["аб".data] : List Str).length →
          (70 : ℚ) < ([(80 : ℚ)] : List ℚ).getD i 0) ∧
      ((correct_normalized_pages
          ⟨["аб".data], "алгебра".data, 2, fun _ => none, fun _ => false,
            some [(80 : ℚ)], 70⟩ true false none).output = some ["аб".data] ∧
        (correct_normalized_pages
          ⟨["аб".data], "алгебра".data, 2, fun _ => none, fun _ => false,
            some [(80 : ℚ)], 70⟩ true false none).calls = []) :=
  ⟨⟨rfl, by decide⟩,
    C5_quality_gate ["аб".data] "алгебра".data 2 (fun _ => none) [(80 : ℚ)] 70 true
      rfl (by decide)⟩

/-! ### Done-set algebra of the batch loop (claim C4) -/

lemma mem_batchList {bs total b i : Nat} (h : i ∈ batchList bs total b) :
    b * bs ≤ i ∧ i < min (b * bs + bs) total := by
  unfold batchList at h
  rw [List.mem_range'_1] at h
  omega

lemma doneStep_subset (need : Finset Nat) (bs total b : Nat) (done : Finset Nat) :
    done ⊆ doneStep need bs total b done := by
  simp only [doneStep]
  split
  · exact Finset.Subset.refl done
  · split
    · exact Finset.subset_union_left
    · exact Finset.subset_union_left.trans Finset.subset_union_left

lemma batchList_subset_doneStep (need : Finset Nat) (bs total b : Nat)
    (done : Finset Nat) : ∀ i ∈ batchList bs total b, i ∈ doneStep need bs total b done := by
  intro i hi
  simp only [doneStep]
  split
  · next hall =>
    rw [List.all_eq_true] at hall
    have := hall i hi
    simpa using this
  · split
    · next hall hind =>
      rw [Finset.mem_union]
      by_cases hdone : i ∈ done
      · exact Or.inl hdone
      · by_cases hneed : i ∈ need
        · exfalso
          have hmem : i ∈ (batchList bs total b).filter
              (fun j => j ∈ need ∧ j ∉ done) := by
            rw [List.mem_filter]
            exact ⟨hi, by simp [hneed, hdone]⟩
          rw [List.isEmpty_iff] at hind
          rw [hind] at hmem
          exact List.not_mem_nil i hmem
        · right
          rw [Finset.mem_filter, Finset.mem_Ico]
          exact ⟨mem_batchList hi, hneed⟩
    · next hall hind =>
      by_cases hdone : i ∈ done
      · exact Finset.mem_union_left _ (Finset.mem_union_left _ hdone)
      · by_cases hneed : i ∈ need
        · apply Finset.mem_union_right
          rw [List.mem_toFinset, List.mem_filter]
          exact ⟨hi, by simp [hneed, hdone]⟩
        · apply Finset.mem_union_left
          apply Finset.mem_union_right
          rw [Finset.mem_filter, Finset.mem_Ico]
          exact ⟨mem_batchList hi, hneed⟩

lemma doneAfter_mono (need : Finset Nat) (bs total : Nat) :
    ∀ {b c : Nat}, b ≤ c →
      doneAfter need bs total b ⊆ doneAfter need bs total c := by
  intro b c h
  induction c with
  | zero =>
    have : b = 0 := by omega
    subst this
    exact Finset.Subset.refl _
  | succ c ih =>
    by_cases hb : b = c + 1
    · subst hb
      exact Finset.Subset.refl _
    · exact (ih (by omega)).trans
        (doneStep_subset need bs total c (doneAfter need bs total c))

lemma batchList_subset_doneAfter (need : Finset Nat) (bs total : Nat)
    {b c : Nat} (h : b < c) :
    ∀ i ∈ batchList bs total b, i ∈ doneAfter need bs total c := by
  intro i hi
  have h1 : i ∈ doneAfter need bs total (b + 1) :=
    batchList_subset_doneStep need bs total b (doneAfter need bs total b) i hi
  exact doneAfter_mono need bs total h h1

lemma doneStep_range (need : Finset Nat) (bs total b : Nat) (done : Finset Nat)
    (h : done ⊆ Finset.range total) :
    doneStep need bs total b done ⊆ Finset.range total := by
  simp only [doneStep]
  split
  · exact h
  · have hIco : (Finset.Ico (b * bs) (min (b * bs + bs) total)).filter (· ∉ need) ⊆
        Finset.range total := by
      intro i hi
      rw [Finset.mem_filter, Finset.mem_Ico] at hi
      rw [Finset.mem_range]
      omega
    split
    · exact Finset.union_subset h hIco
    · apply Finset.union_subset (Finset.union_subset h hIco)
      intro i hi
      rw [List.mem_toFinset, List.mem_filter] at hi
      have := mem_batchList hi.1
      rw [Finset.mem_range]
      omega

lemma doneAfter_range (need : Finset Nat) (bs total : Nat) :
    ∀ c, doneAfter need bs total c ⊆ Finset.range total := by
  intro c
  induction c with
  | zero => simp [doneAfter]
  | succ c ih => exact doneStep_range need bs total c _ ih

lemma callsSeg_add (need : Finset Nat) (bs total : Nat) (pts : List Str) :
    ∀ (k1 k2 b : Nat), callsSeg need bs total pts b (k1 + k2) =
      callsSeg need bs total pts b k1 ++ callsSeg need bs total pts (b + k1) k2 := by
  intro k1
  induction k1 with
  | zero =>
    intro k2 b
    simp [callsSeg]
  | succ k1 ih =>
    intro k2 b
    have e : k1 + 1 + k2 = (k1 + k2) + 1 := by omega
    rw [e]
    simp only [callsSeg]
    rw [ih, List.append_assoc]
    have hb : b + 1 + k1 = b + (k1 + 1) := by omega
    rw [hb]

lemma processBatch_skip (cfg : CorrectConfig) (need : Finset Nat) (total : Nat)
    (st : CorrectState) (b : Nat) (hc : cfg.cancel b = false)
    (hall : (batchList cfg.batchSize total b).all (· ∈ st.done) = true) :
    processBatch cfg need total true st b = .ok st := by
  simp only [batchList] at hall
  simp only [processBatch, hc, Bool.false_eq_true, if_false, hall, true_and,
    if_true, and_self]

/-- The cancel-free loop: starting at batch b with the done-set of a run
whose first max b c batches are complete, the loop completes, its done-set
advances to max (b+k) c, and its calls are exactly the calls of the
uninterrupted run's batches max b c, ..., b+k-1 (batches below c are skipped
by the all-done check). -/
lemma correctLoop_resume (cfg : CorrectConfig) (need : Finset Nat) (total c : Nat)
    (hcanc : ∀ j, cfg.cancel j = false) (hllm : ∀ s, (cfg.llm s).isSome) :
    ∀ (k b : Nat) (st : CorrectState),
      st.done = doneAfter need cfg.batchSize total (max b c) →
      ∃ st', correctLoop cfg need total true (List.range' b k) st = .ok st'
        ∧ st'.done = doneAfter need cfg.batchSize total (max (b + k) c)
        ∧ st'.calls = st.calls ++
            callsSeg need cfg.batchSize total cfg.pageTexts (max b c)
              (b + k - max b c) := by
  intro k
  induction k with
  | zero =>
    intro b st hd
    refine ⟨st, rfl, by simpa using hd, ?_⟩
    have h0 : b + 0 - max b c = 0 := by omega
    rw [h0]
    simp [callsSeg]
  | succ k ih =>
    intro b st hd
    rw [List.range'_succ]
    by_cases hb : b < c
    · have hmax : max b c = c := max_eq_right (le_of_lt hb)
      have hmax2 : max (b + 1) c = c := max_eq_right (by omega)
      have hall : (batchList cfg.batchSize total b).all (· ∈ st.done) = true := by
        rw [List.all_eq_true]
        intro i hi
        rw [decide_eq_true_eq, hd, hmax]
        exact batchList_subset_doneAfter need cfg.batchSize total hb i hi
      have hskip := processBatch_skip cfg need total st b (hcanc b) hall
      obtain ⟨st', h1, h2, h3⟩ := ih (b + 1) st (by rw [hd, hmax, hmax2])
      refine ⟨st', ?_, ?_, ?_⟩
      · simp only [correctLoop, hskip]
        exact h1
      · rw [h2]
        congr 1
        omega
      · rw [h3, hmax, hmax2]
        congr 2
        omega
    · have hcb : c ≤ b := by omega
      have hmax : max b c = b := max_eq_left hcb
      have hmax2 : max (b + 1) c = b + 1 := max_eq_left (by omega)
      obtain ⟨st2, hpb, hpd, hpc⟩ := processBatch_char cfg need total st b (hcanc b) hllm
      have hd2 : st2.done = doneAfter need cfg.batchSize total (max (b + 1) c) := by
        rw [hpd, hd, hmax, hmax2]
        rfl
      obtain ⟨st', h1, h2, h3⟩ := ih (b + 1) st2 hd2
      refine ⟨st', ?_, ?_, ?_⟩
      · simp only [correctLoop, hpb]
        exact h1
      · rw [h2]
        congr 1
        omega
      · rw [h3, hpc, hd, hmax, hmax2]
        have e1 : b + 1 + k - (b + 1) = k := by omega
        have e2 : b + (k + 1) - b = k + 1 := by omega
        rw [e1, e2, List.append_assoc]
        congr 1

/-- The run whose cancel check first fires at batch c: processing stops at
batch c with exactly the uninterrupted run's calls for batches below c, and
the checkpoint file holds the done-set of those batches. -/
lemma correctLoop_cancelAt (cfg : CorrectConfig) (need : Finset Nat) (total c : Nat)
    (hcanc : ∀ j, cfg.cancel j = decide (c ≤ j)) (hllm : ∀ s, (cfg.llm s).isSome) :
    ∀ (k b : Nat) (st : CorrectState),
      st.done = doneAfter need cfg.batchSize total b → b ≤ c → c < b + k →
      ∃ res, correctLoop cfg need total true (List.range' b k) st =
        .error ⟨fillEmpty cfg.pageTexts res,
                doneAfter need cfg.batchSize total c,
                st.calls ++ callsSeg need cfg.batchSize total cfg.pageTexts b (c - b),
                some (save_checkpoint (fillEmpty cfg.pageTexts res)
                  (doneAfter need cfg.batchSize total c))⟩ := by
  intro k
  induction k with
  | zero =>
    intro b st hd hbc hck
    exact absurd hck (by omega)
  | succ k ih =>
    intro b st hd hbc hck
    rw [List.range'_succ]
    by_cases hb : b = c
    · subst hb
      have hcan : cfg.cancel b = true := by rw [hcanc]; simp
      refine ⟨st.result, ?_⟩
      simp only [correctLoop, processBatch, hcan, if_true, hd]
      have h0 : b - b = 0 := by omega
      rw [h0]
      simp [callsSeg]
    · have hbc2 : b < c := by omega
      have hcan : cfg.cancel b = false := by
        rw [hcanc]
        exact decide_eq_false (by omega)
      obtain ⟨st2, hpb, hpd, hpc⟩ := processBatch_char cfg need total st b hcan hllm
      have hd2 : st2.done = doneAfter need cfg.batchSize total (b + 1) := by
        rw [hpd, hd]
        rfl
      obtain ⟨res, h1⟩ := ih (b + 1) st2 hd2 (by omega) (by omega)
      refine ⟨res, ?_⟩
      simp only [correctLoop, hpb]
      rw [h1, hpc, hd]
      have e1 : c - b = (c - (b + 1)) + 1 := by omega
      rw [e1]
      simp only [callsSeg, List.append_assoc]

/-! ### Pages already done are never sent (claim C4, first part) -/

lemma processBatch_keep_error (cfg : CorrectConfig) (need : Finset Nat)
    (total : Nat) (hasCp : Bool) (st : CorrectState) (b : Nat)
    {st' : CorrectState}
    (h : processBatch cfg need total hasCp st b = .error st') :
    st'.done = st.done ∧ st'.calls = st.calls := by
  unfold processBatch at h
  by_cases hc : cfg.cancel b = true
  · rw [if_pos hc] at h
    injection h with h
    subst h
    exact ⟨rfl, rfl⟩
  · rw [if_neg hc] at h
    simp only [] at h
    split at h
    · exact Except.noConfusion h
    · split at h
      · exact Except.noConfusion h
      · split at h
        · exact Except.noConfusion h
        · split at h
          · exact Except.noConfusion h
          · exact Except.noConfusion h

lemma processBatch_keep_ok (cfg : CorrectConfig) (need : Finset Nat)
    (total : Nat) (hasCp : Bool) (st : CorrectState) (b : Nat)
    {st' : CorrectState} {i : Nat} (hi : i ∈ st.done)
    (h : processBatch cfg need total hasCp st b = .ok st') :
    i ∈ st'.done ∧ ∀ req ∈ st'.calls, req ∈ st.calls ∨ i ∉ req.1 := by
  have hind : ∀ req2 : List Nat × Str,
      req2.1 = (List.range' (b * cfg.batchSize)
        (min (b * cfg.batchSize + cfg.batchSize) total - b * cfg.batchSize)).filter
        (fun j => j ∈ need ∧ j ∉ st.done) → i ∉ req2.1 := by
    intro req2 hreq hmem
    rw [hreq, List.mem_filter] at hmem
    have := hmem.2
    rw [decide_eq_true_eq] at this
    exact this.2 hi
  unfold processBatch at h
  by_cases hc : cfg.cancel b = true
  · rw [if_pos hc] at h
    exact Except.noConfusion h
  · rw [if_neg hc] at h
    simp only [] at h
    split at h
    · injection h with h
      subst h
      exact ⟨hi, fun req hr => Or.inl hr⟩
    · split at h
      · injection h with h
        subst h
        exact ⟨Finset.mem_union_left _ hi, fun req hr => Or.inl hr⟩
      · split at h
        · injection h with h
          subst h
          refine ⟨Finset.mem_union_left _ (Finset.mem_union_left _ hi),
            fun req hr => Or.inl hr⟩
        · split at h
          · injection h with h
            subst h
            refine ⟨Finset.mem_union_left _ (Finset.mem_union_left _ hi), ?_⟩
            intro req hr
            rw [List.mem_append] at hr
            rcases hr with hr | hr
            · exact Or.inl hr
            · rw [List.mem_singleton] at hr
              subst hr
              exact Or.inr (hind _ rfl)
          · injection h with h
            subst h
            refine ⟨Finset.mem_union_left _ hi, ?_⟩
            intro req hr
            rw [List.mem_append] at hr
            rcases hr with hr | hr
            · exact Or.inl hr
            · rw [List.mem_singleton] at hr
              subst hr
              exact Or.inr (hind _ rfl)

lemma correctLoop_keep (cfg : CorrectConfig) (need : Finset Nat)
    (total : Nat) (hasCp : Bool) {i : Nat} :
    ∀ (bsL : List Nat) (st : CorrectState), i ∈ st.done →
      ∀ {st' : CorrectState},
        (correctLoop cfg need total hasCp bsL st = .ok st' ∨
          correctLoop cfg need total hasCp bsL st = .error st') →
        ∀ req ∈ st'.calls, req ∈ st.calls ∨ i ∉ req.1 := by
  intro bsL
  induction bsL with
  | nil =>
    intro st hi st' h req hr
    rcases h with h | h
    · injection h with h
      subst h
      exact Or.inl hr
    · exact Except.noConfusion h
  | cons b rest ih =>
    intro st hi st' h req hr
    cases hpb : processBatch cfg need total hasCp st b with
    | error st2 =>
      have hcalls := (processBatch_keep_error cfg need total hasCp st b hpb).2
      have hst' : st' = st2 := by
        rcases h with h | h
        · simp only [correctLoop, hpb] at h
          exact Except.noConfusion h
        · simp only [correctLoop, hpb] at h
          injection h with h
          exact h.symm
      subst hst'
      rw [hcalls] at hr
      exact Or.inl hr
    | ok st2 =>
      obtain ⟨hi2, hcalls2⟩ := processBatch_keep_ok cfg need total hasCp st b hi hpb
      have h2 : correctLoop cfg need total hasCp rest st2 = .ok st' ∨
          correctLoop cfg need total hasCp rest st2 = .error st' := by
        rcases h with h | h
        · simp only [correctLoop, hpb] at h
          exact Or.inl h
        · simp only [correctLoop, hpb] at h
          exact Or.inr h
      rcases ih st2 hi2 h2 req hr with hr2 | hr2
      · exact hcalls2 req hr2
      · exact Or.inr hr2

/-- Cancelling a run at batch c and rerunning from its saved checkpoint
issues, across both runs, exactly the calls of one uninterrupted run. -/
lemma resume_calls_eq (pts : List Str) (subj : Str) (bs : Nat)
    (llm : Str → Option Str) (qso : Option (List ℚ)) (thr : ℚ) (c : Nat)
    (hllm : ∀ s, (llm s).isSome) (hem : pts.isEmpty = false)
    (hc : c < totalBatchesOf pts.length bs) :
    (correct_normalized_pages ⟨pts, subj, bs, llm, fun j => decide (c ≤ j), qso, thr⟩
        true true none).calls ++
      (correct_normalized_pages ⟨pts, subj, bs, llm, fun _ => false, qso, thr⟩
        true true
        (correct_normalized_pages ⟨pts, subj, bs, llm, fun j => decide (c ≤ j), qso, thr⟩
          true true none).cpFile).calls =
    (correct_normalized_pages ⟨pts, subj, bs, llm, fun _ => false, qso, thr⟩
        true true none).calls := by
  have hmax0 : max 0 c = c := max_eq_right (Nat.zero_le c)
  obtain ⟨res1, hrun1⟩ := correctLoop_cancelAt
    ⟨pts, subj, bs, llm, fun j => decide (c ≤ j), qso, thr⟩
    (needLLMSet ⟨pts, subj, bs, llm, fun j => decide (c ≤ j), qso, thr⟩ pts.length)
    pts.length c (fun _ => rfl) hllm
    (totalBatchesOf pts.length bs) 0
    ⟨(initResult ⟨pts, subj, bs, llm, fun j => decide (c ≤ j), qso, thr⟩ true none).1,
     (initResult ⟨pts, subj, bs, llm, fun j => decide (c ≤ j), qso, thr⟩ true none).2,
     [], none⟩
    rfl (Nat.zero_le c) (by omega)
  simp only [Nat.sub_zero, List.nil_append] at hrun1
  have hneedeq : needLLMSet ⟨pts, subj, bs, llm, fun j => decide (c ≤ j), qso, thr⟩
      pts.length = needLLMSet ⟨pts, subj, bs, llm, fun _ => false, qso, thr⟩
      pts.length := rfl
  simp only [correct_normalized_pages, hem, Bool.false_eq_true, if_false,
    Bool.not_true, List.range_eq_range']
  rw [hrun1]
  simp only [hneedeq]
  set need : Finset Nat :=
    needLLMSet ⟨pts, subj, bs, llm, fun _ => false, qso, thr⟩ pts.length with hneed
  set cpS : Checkpoint := save_checkpoint (fillEmpty pts res1)
    (doneAfter need bs pts.length c) with hcpS
  have hdone2 : (initResult ⟨pts, subj, bs, llm, fun _ => false, qso, thr⟩ true
      (some cpS)).2 = doneAfter need bs pts.length c := by
    have hstep : (initResult ⟨pts, subj, bs, llm, fun _ => false, qso, thr⟩ true
        (some cpS)).2 = (doneAfter need bs pts.length c).filter (· < pts.length) :=
      rfl
    rw [hstep]
    apply Finset.filter_true_of_mem
    intro i hi
    exact Finset.mem_range.mp (doneAfter_range need bs pts.length c hi)
  obtain ⟨st2, hrun2, hd2, hc2⟩ := correctLoop_resume
    ⟨pts, subj, bs, llm, fun _ => false, qso, thr⟩ need pts.length c
    (fun _ => rfl) hllm (totalBatchesOf pts.length bs) 0
    ⟨(initResult ⟨pts, subj, bs, llm, fun _ => false, qso, thr⟩ true (some cpS)).1,
     (initResult ⟨pts, subj, bs, llm, fun _ => false, qso, thr⟩ true (some cpS)).2,
     [], some cpS⟩
    (by rw [hmax0]; exact hdone2)
  obtain ⟨stu, huni, hdu, hcu⟩ := correctLoop_resume
    ⟨pts, subj, bs, llm, fun _ => false, qso, thr⟩ need pts.length 0
    (fun _ => rfl) hllm (totalBatchesOf pts.length bs) 0
    ⟨(initResult ⟨pts, subj, bs, llm, fun _ => false, qso, thr⟩ true none).1,
     (initResult ⟨pts, subj, bs, llm, fun _ => false, qso, thr⟩ true none).2,
     [], none⟩
    rfl
  rw [hrun2, huni]
  simp only [hc2, hcu, List.nil_append, hmax0, Nat.zero_add, Nat.max_self]
  have hTB : totalBatchesOf pts.length bs = c + (totalBatchesOf pts.length bs - c) := by
    omega
  rw [hTB]
  rw [show c + (totalBatchesOf pts.length bs - c) - c
      = totalBatchesOf pts.length bs - c from by omega]
  rw [show c + (totalBatchesOf pts.length bs - c) - 0
      = c + (totalBatchesOf pts.length bs - c) from by omega]
  rw [callsSeg_add]
  simp

/-- **C4**: (first conjunct) a page index in the supplied checkpoint's done
set and within bounds is never included in any LLM request of the run,
whatever the LLM responses, gate scores or cancellation behaviour; (second
conjunct) a run whose cancel check first fires at batch c, resumed from the
checkpoint it saved, issues across both runs exactly the calls of one
uninterrupted run. -/
theorem C4_checkpoint_resume :
    (∀ (cfg : CorrectConfig) (api : Bool) (cp : Checkpoint) (i : Nat),
        i ∈ cp.done → i < cfg.pageTexts.length →
        ∀ req ∈ (correct_normalized_pages cfg api true (some cp)).calls,
          i ∉ req.1) ∧
    (∀ (pts : List Str) (subj : Str) (bs : Nat) (llm : Str → Option Str)
        (qso : Option (List ℚ)) (thr : ℚ) (c : Nat),
        (∀ s, (llm s).isSome) → c < totalBatchesOf pts.length bs →
        (correct_normalized_pages
            ⟨pts, subj, bs, llm, fun j => decide (c ≤ j), qso, thr⟩
            true true none).calls ++
          (correct_normalized_pages ⟨pts, subj, bs, llm, fun _ => false, qso, thr⟩
            true true
            (correct_normalized_pages
              ⟨pts, subj, bs, llm, fun j => decide (c ≤ j), qso, thr⟩
              true true none).cpFile).calls =
        (correct_normalized_pages ⟨pts, subj, bs, llm, fun _ => false, qso, thr⟩
            true true none).calls) := by
  constructor
  · intro cfg api cp i hic hilt req hreq
    by_cases hem : cfg.pageTexts.isEmpty = true
    · simp [correct_normalized_pages, hem] at hreq
    · cases api with
      | false => simp [correct_normalized_pages, hem] at hreq
      | true =>
        simp only [correct_normalized_pages, hem, Bool.false_eq_true, if_false,
          Bool.not_true] at hreq
        have hinit : i ∈ (⟨(initResult cfg true (some cp)).1,
            (initResult cfg true (some cp)).2, [], some cp⟩ : CorrectState).done := by
          show i ∈ (initResult cfg true (some cp)).2
          have hstep : (initResult cfg true (some cp)).2 =
              cp.done.filter (· < cfg.pageTexts.length) := rfl
          rw [hstep, Finset.mem_filter]
          exact ⟨hic, by simpa using hilt⟩
        cases hE : correctLoop cfg (needLLMSet cfg cfg.pageTexts.length)
            cfg.pageTexts.length true
            (List.range (totalBatchesOf cfg.pageTexts.length cfg.batchSize))
            ⟨(initResult cfg true (some cp)).1, (initResult cfg true (some cp)).2,
              [], some cp⟩ with
        | error st =>
          simp only [hE] at hreq
          rcases correctLoop_keep cfg (needLLMSet cfg cfg.pageTexts.length)
              cfg.pageTexts.length true _ _ hinit (Or.inr hE) req hreq with h | h
          · exact absurd h (List.not_mem_nil req)
          · exact h
        | ok st =>
          simp only [hE] at hreq
          rcases correctLoop_keep cfg (needLLMSet cfg cfg.pageTexts.length)
              cfg.pageTexts.length true _ _ hinit (Or.inl hE) req hreq with h | h
          · exact absurd h (List.not_mem_nil req)
          · exact h
  · intro pts subj bs llm qso thr c hllm hc
    have hbs : 0 < bs := by
      by_contra hb
      have hb0 : bs = 0 := by omega
      subst hb0
      rw [totalBatchesOf, Nat.div_zero] at hc
      omega
    have hne : pts ≠ [] := by
      intro hpe
      subst hpe
      have h0 : totalBatchesOf ([] : List Str).length bs = 0 := by
        show (0 + bs - 1) / bs = 0
        exact Nat.div_eq_of_lt (by omega)
      rw [h0] at hc
      omega
    have hem : pts.isEmpty = false := by
      cases pts with
      | nil => exact absurd rfl hne
      | cons a t => rfl
    exact resume_calls_eq pts subj bs llm qso thr c hllm hem hc

theorem C4_witness :
    (((0 : Nat) ∈ ({0} : Finset Nat) ∧ (0 : Nat) < c4pts.length) ∧
      ((∀ s : Str, ((fun _ : Str => some ("х".data : Str)) s).isSome) ∧
        0 < totalBatchesOf c4pts.length 1)) ∧
    ((∀ req ∈ (correct_normalized_pages
          ⟨c4pts, "геометрия".data, 1, fun _ => some "х".data, fun _ => false,
            none, 0⟩ true true
          (some ⟨{0}, fun _ => none⟩)).calls, (0 : Nat) ∉ req.1) ∧
      ((correct_normalized_pages
          ⟨c4pts, "геометрия".data, 1, fun _ => some "х".data,
            fun j => decide (0 ≤ j), none, 0⟩ true true none).calls ++
        (correct_normalized_pages
          ⟨c4pts, "геометрия".data, 1, fun _ => some "х".data, fun _ => false,
            none, 0⟩ true true
          (correct_normalized_pages
            ⟨c4pts, "геометрия".data, 1, fun _ => some "х".data,
              fun j => decide (0 ≤ j), none, 0⟩ true true none).cpFile).calls =
        (correct_normalized_pages
          ⟨c4pts, "геометрия".data, 1, fun _ => some "х".data, fun _ => false,
            none, 0⟩ true true none).calls)) :=
  ⟨⟨⟨by decide, by decide⟩, ⟨fun _ => rfl, by decide⟩⟩,
    ⟨C4_checkpoint_resume.1
        ⟨c4pts, "геометрия".data, 1, fun _ => some "х".data, fun _ => false,
          none, 0⟩ true ⟨{0}, fun _ => none⟩ 0 (by decide) (by decide),
      C4_checkpoint_resume.2 c4pts "геометрия".data 1 (fun _ => some "х".data)
        none 0 0 (fun _ => rfl) (by decide)⟩⟩

lemma linkFilter_emptyish {bookId : Nat} {number : Str} {secVal : Option Str}
    {p : Problem} (h : linkFilter bookId number secVal p = true) :
    answerEmptyish p = true := by
  unfold linkFilter at h
  simp only [Bool.and_eq_true] at h
  exact h.1.2

lemma linkFrame_refl (db : List Problem) : linkFrame db db := by
  refine ⟨rfl, ?_⟩
  intro i p q hp hq
  rw [hp] at hq
  injection hq with hpq
  subst hpq
  exact ⟨rfl, fun _ => rfl⟩

lemma linkFrame_trans {a b c : List Problem}
    (h1 : linkFrame a b) (h2 : linkFrame b c) : linkFrame a c := by
  refine ⟨h2.1.trans h1.1, ?_⟩
  intro i p q hp hq
  have hia : i < a.length := (List.get?_eq_some.mp hp).1
  have hib : i < b.length := by
    have hba := h1.1
    omega
  obtain ⟨m, hm⟩ : ∃ m, b.get? i = some m :=
    ⟨b.get ⟨i, hib⟩, List.get?_eq_some.mpr ⟨hib, rfl⟩⟩
  obtain ⟨f1, f2⟩ := h1.2 i p m hp hm
  obtain ⟨g1, g2⟩ := h2.2 i m q hm hq
  constructor
  · rw [g1, f1]
  · intro hne
    have hm2 : m = p := f2 hne
    subst hm2
    exact g2 hne

lemma linkUpdate_frame {flt : Problem → Bool} {ans : Str}
    (hflt : ∀ p, flt p = true → answerEmptyish p = true) :
    ∀ {db db2 : List Problem}, linkUpdate flt ans db = some db2 →
      linkFrame db db2 := by
  intro db
  induction db with
  | nil => intro db2 h; simp [linkUpdate] at h
  | cons p rest ih =>
    intro db2 h
    unfold linkUpdate at h
    by_cases hf : flt p = true
    · rw [if_pos hf] at h
      injection h with h
      subst h
      refine ⟨by simp, ?_⟩
      intro i x q hx hq
      match i, hx, hq with
      | 0, hx, hq =>
        injection hx with hx
        injection hq with hq
        subst hx; subst hq
        exact ⟨rfl, fun hne => absurd (hflt p hf) (by rw [hne]; simp)⟩
      | n + 1, hx, hq =>
        simp only [List.get?_cons_succ] at hx hq
        rw [hx] at hq
        injection hq with hq
        subst hq
        exact ⟨rfl, fun _ => rfl⟩
    · rw [if_neg hf] at h
      rcases hrec : linkUpdate flt ans rest with _ | rest2
      · rw [hrec] at h; exact Option.noConfusion h
      · rw [hrec] at h
        injection h with h
        subst h
        have hfr := ih hrec
        refine ⟨by simpa using hfr.1, ?_⟩
        intro i x q hx hq
        match i, hx, hq with
        | 0, hx, hq =>
          injection hx with hx
          injection hq with hq
          subst hx; subst hq
          exact ⟨rfl, fun _ => rfl⟩
        | n + 1, hx, hq =>
          simp only [List.get?_cons_succ] at hx hq
          exact hfr.2 n x q hx hq

lemma linkOne_frame (bookId : Nat) (db : List Problem) (item : AnsItem) :
    linkFrame db (linkOne bookId db item) := by
  unfold linkOne
  by_cases hguard : ((strip item.number).isEmpty || (strip item.answerText).isEmpty) = true
  · rw [if_pos hguard]; exact linkFrame_refl db
  · rw [if_neg hguard]
    rcases h1 : linkUpdate (linkFilter bookId (strip item.number)
        (if (strip (item.sectionLabel.getD [])).isEmpty then none
         else if startsWith "§".data (strip (item.sectionLabel.getD [])) then
           some (strip (item.sectionLabel.getD []))
         else some ('§' :: strip (item.sectionLabel.getD []))))
        ((strip item.answerText).take 2000) db with _ | db2
    · rcases h2 : linkUpdate (linkFilter bookId (strip item.number) none)
          ((strip item.answerText).take 2000) db with _ | db3
      · simp only [h1, h2]
        exact linkFrame_refl db
      · simp only [h1, h2]
        exact linkUpdate_frame (fun p hp => linkFilter_emptyish hp) h2
    · simp only [h1]
      exact linkUpdate_frame (fun p hp => linkFilter_emptyish hp) h1

/-- Claim C6: link_answers_to_problems changes at most the answer_text field
of stored problems, and never touches a problem whose answer_text is already
non-empty. -/
theorem C6_linking_frame (bookId : Nat) (db : List Problem)
    (answers : List AnsItem) :
    (link_answers_to_problems bookId db answers).length = db.length
    ∧ ∀ i p q, db.get? i = some p →
        (link_answers_to_problems bookId db answers).get? i = some q →
        q = { p with answerText := q.answerText }
        ∧ (answerEmptyish p = false → q = p) := by
  have hfr : linkFrame db (link_answers_to_problems bookId db answers) := by
    unfold link_answers_to_problems
    induction answers generalizing db with
    | nil => exact linkFrame_refl db
    | cons a rest ih =>
      exact linkFrame_trans (linkOne_frame bookId db a) (ih (linkOne bookId db a))
  exact hfr

/-- Witness for claim C6: a freshly parsed answer for the same number does
not overwrite the stored non-empty answer. -/
theorem C6_witness :
    (link_answers_to_problems 7 [problemWithAnswer]
        [⟨"5".data, "новый".data, none⟩]).get? 0 = some problemWithAnswer
    ∧ (problemWithAnswer =
         { problemWithAnswer with answerText := problemWithAnswer.answerText }
       ∧ (answerEmptyish problemWithAnswer = false →
           problemWithAnswer = problemWithAnswer)) :=
  ⟨by decide,
   (C6_linking_frame 7 [problemWithAnswer] [⟨"5".data, "новый".data, none⟩]).2
     0 problemWithAnswer problemWithAnswer (by decide) (by decide)⟩

/-! ## Claim C7: continuation lines in parse_answers_from_text -/

lemma ansSplitGo_odd : ∀ (fuel : Nat) (b : Bool) (s : Str),
    (ansSplitGo fuel b s).length % 2 = 1 := by
  intro fuel
  induction fuel with
  | zero => intro b s; rfl
  | succ n ih =>
    intro b s
    match s with
    | [] => rfl
    | c :: t =>
      rw [ansSplitGo]
      rcases hm : answerNumMatchAt b (c :: t) with _ | ⟨cap, rest⟩
      · have hlen := ih (pyDigit c) t
        rcases hrec : ansSplitGo n (pyDigit c) t with _ | ⟨t1, more⟩
        · simp [hrec]
        · rw [hrec] at hlen
          simp only [hrec, List.length_cons] at hlen ⊢
          omega
      · have hlen := ih false rest
        rcases hrec : ansSplitGo n false rest with _ | ⟨t1, more⟩
        · simp [hrec]
        · rw [hrec] at hlen
          simp only [hrec, List.length_cons] at hlen ⊢
          omega

lemma ansWhile_stop (parts : List Str) (sec : Option Str) :
    ∀ (fuel i : Nat) (lastNum : Option Str) (acc : List AnsItem),
      parts.length ≤ 2 * fuel + i →
      ¬((ansWhile parts sec fuel i lastNum acc).2.1 + 1 < parts.length)
      ∧ (ansWhile parts sec fuel i lastNum acc).2.1 % 2 = i % 2 := by
  intro fuel
  induction fuel with
  | zero =>
    intro i lastNum acc hle
    exact ⟨by simp [ansWhile]; omega, by simp [ansWhile]⟩
  | succ n ih =>
    intro i lastNum acc hle
    rw [ansWhile]
    by_cases hc : i + 1 < parts.length
    · rw [if_pos hc]
      exact ⟨(ih _ _ _ (by omega)).1,
             ((ih _ _ _ (by omega)).2).trans (by omega)⟩
    · rw [if_neg hc]
      exact ⟨hc, rfl⟩

lemma ansWhile_index_ge {parts : List Str} (hodd : parts.length % 2 = 1)
    (sec lastNum : Option Str) (acc : List AnsItem) :
    ¬((ansWhile parts sec parts.length 1 lastNum acc).2.1 < parts.length) := by
  have h := ansWhile_stop parts sec parts.length 1 lastNum acc (by omega)
  omega

lemma ansLineRest_none {st : AnsState} (h : st.currentNumber = none)
    (stripped : Str) : (ansLineRest st stripped).currentNumber = none := by
  simp only [ansLineRest]
  by_cases h1 : (ansSplit stripped).length = 1
  · rw [if_pos h1]
    simp [h]
  · rw [if_neg h1]
    have hodd : (ansSplit stripped).length % 2 = 1 :=
      ansSplitGo_odd (stripped.length + 1) false stripped
    rw [h]
    simp only [Option.isSome_none, Bool.false_and, Bool.false_eq_true, if_false]
    split
    · next hcond =>
      exfalso
      simp only [Bool.and_eq_true, decide_eq_true_eq] at hcond
      exact ansWhile_index_ge hodd _ _ _ hcond.1.1
    · rfl

lemma ansLine_none {st : AnsState} (h : st.currentNumber = none) (line : Str) :
    (ansLine st line).currentNumber = none := by
  unfold ansLine
  by_cases hskip : skipHeaderLine line = true
  · rw [if_pos hskip]; exact h
  · rw [if_neg hskip]
    by_cases hemp : (strip line).isEmpty = true
    · rw [if_pos hemp]
      rw [h]
      simp [h]
    · rw [if_neg hemp]
      rcases hpara : reAnswerParagraphHeader (strip line) with _ | num
      · rcases hinl : inlineParaSearch (strip line) with _ | ⟨num, after⟩
        · exact ansLineRest_none h (strip line)
        · show (if List.isEmpty (strip after) = true
              then ({ st with currentSection := some num } : AnsState)
              else ansLineRest { st with currentSection := some num }
                (strip after)).currentNumber = none
          by_cases hemp2 : List.isEmpty (strip after) = true
          · rw [if_pos hemp2]; exact h
          · rw [if_neg hemp2]
            exact ansLineRest_none
              (show ({ st with currentSection := some num } : AnsState).currentNumber = none from h)
              (strip after)
      · rfl

/-- Claim C7 is wrong about the code: the open-answer state is never
established (the split loop consumes every numbered segment, so
current_number is None after every line), and on the failing input the
continuation line is dropped instead of extending answer 5. -/
theorem C7_continuation_dropped :
    (∀ text : Str,
      (((splitLines text).foldl ansLine ⟨[], none, none, []⟩).currentNumber) = none)
    ∧ parse_answers_from_text continuationInput =
        [⟨"5".data, "Ответ длинный здесь".data, none⟩] := by
  constructor
  · intro text
    have hgen : ∀ (lines : List Str) (st : AnsState), st.currentNumber = none →
        ((lines.foldl ansLine st).currentNumber) = none := by
      intro lines
      induction lines with
      | nil => intro st h; exact h
      | cons l ls ih =>
        intro st h
        exact ih (ansLine st l) (ansLine_none h l)
    exact hgen (splitLines text) ⟨[], none, none, []⟩ rfl
  · decide

/-- Witness for the amended claim C2 at a concrete input with long enough
sentences. -/
theorem C2_witness :
    segmentThenSplit "1. Найдите значение переменной x. 2. Докажите равенство углов y.".data 0 =
      [⟨some "1".data,
        strip (slice "1. Найдите значение переменной x. 2. Докажите равенство углов y.".data 0 34),
        none, 60⟩,
       ⟨some "2".data,
        strip (slice "1. Найдите значение переменной x. 2. Докажите равенство углов y.".data 34
          ("1. Найдите значение переменной x. 2. Докажите равенство углов y.".data).length),
        none, 60⟩] :=
  C2_amended "1. Найдите значение переменной x. 2. Докажите равенство углов y.".data
    "1".data "2".data 34 3 37
    (by decide) (by decide) (by decide) (by decide) (by decide) (by decide)

/-! ### Claim C1: the rewrite is atomic -/

lemma import_llm_cases (db0 : DB) (srcId : Nat) (fileExists : Bool)
    (pagesData : List (Nat × Str)) (dist : DistribOutcome) (flushOk : Nat → Bool) :
    (import_from_normalized_file_llm db0 srcId fileExists pagesData dist flushOk).1
      = .success ∨
    (import_from_normalized_file_llm db0 srcId fileExists pagesData dist flushOk).2
      = db0 := by
  unfold import_from_normalized_file_llm
  split
  · exact Or.inr rfl
  · simp only []
    split
    · exact Or.inr rfl
    · split
      · exact Or.inr rfl
      · split
        · exact Or.inr rfl
        · exact Or.inr rfl
        · split
          · exact Or.inr rfl
          · split
            · exact Or.inr rfl
            · split
              · exact Or.inr rfl
              · split
                · exact Or.inr rfl
                · exact Or.inl rfl

/-- **C1**: whenever the LLM-distribution import does not return success —
any error (source missing, file missing, empty page list, distribution
failure, empty block list, a database error at any flush point) or the
polled cancellation — the persisted database is exactly the one from before
the run: nothing is deleted or replaced, and the full replacement set is
committed only on the success path. -/
theorem C1_atomic_rewrite (db0 : DB) (srcId : Nat) (fileExists : Bool)
    (pagesData : List (Nat × Str)) (dist : DistribOutcome) (flushOk : Nat → Bool)
    (hfail : (import_from_normalized_file_llm db0 srcId fileExists pagesData dist
      flushOk).1 ≠ .success) :
    (import_from_normalized_file_llm db0 srcId fileExists pagesData dist flushOk).2
      = db0 :=
  (import_llm_cases db0 srcId fileExists pagesData dist flushOk).resolve_left hfail

theorem C1_witness :
    (import_from_normalized_file_llm c1db 1 true [(1, "текст".data)]
        .cancelled (fun _ => true)).1 ≠ ImportStatus.success ∧
    (import_from_normalized_file_llm c1db 1 true [(1, "текст".data)]
        .cancelled (fun _ => true)).2 = c1db :=
  ⟨by decide,
    C1_atomic_rewrite c1db 1 true [(1, "текст".data)] .cancelled (fun _ => true)
      (by decide)⟩

/-- Claim C8 is falsified at a concrete input: an import that succeeds yet
persists a problem with has_parts = true and no ProblemPart row — the
"parts" list was non-empty (so has_parts was set) but its only entry is not
a dict (so the part loop inserted nothing). -/
theorem C8_counterexample :
    (import_from_normalized_file_llm c8db 1 true [(1, "страница".data)]
        (.ok [c8block]) (fun _ => true)).1 = ImportStatus.success ∧
    ¬ partsInv (import_from_normalized_file_llm c8db 1 true [(1, "страница".data)]
        (.ok [c8block]) (fun _ => true)).2 := by
  constructor
  · decide
  · unfold partsInv
    decide

lemma orNone_eq_none (s : Str) : orNone s = none ↔ s.isEmpty = true := by
  unfold orNone
  split
  · next h => simp [h]
  · next h => simp [h]

lemma deletePhase_partsInv (db : DB) (srcId bookId : Nat)
    (hids : ∀ p ∈ db.problems, ∀ q ∈ db.problems, p.id = q.id → p = q)
    (hinv : partsInv db) : partsInv (deletePhase db srcId bookId) := by
  intro pr hpr hhp
  simp only [deletePhase] at hpr ⊢
  rw [List.mem_filter] at hpr
  obtain ⟨hprdb, hkeep⟩ := hpr
  obtain ⟨pt, hpt, hpid⟩ := hinv pr hprdb hhp
  refine ⟨pt, ?_, hpid⟩
  rw [List.mem_filter]
  refine ⟨hpt, ?_⟩
  rw [Bool.not_eq_true', decide_eq_false_iff_not]
  intro hmem
  rw [List.mem_map] at hmem
  obtain ⟨q, hq, hqid⟩ := hmem
  rw [List.mem_filter] at hq
  obtain ⟨hqdb, hqdel⟩ := hq
  have hq2 : q = pr := hids q hqdb pr hprdb (hqid.trans hpid)
  subst hq2
  cases hsp : q.sourcePageId with
  | none =>
    simp only [hsp] at hqdel
    exact absurd hqdel (by simp)
  | some pid =>
    simp only [hsp] at hqdel hkeep
    rw [hqdel] at hkeep
    exact absurd hkeep (by simp)

lemma insertPagesGo_frames (srcId : Nat) (flushOk : Nat → Bool) :
    ∀ (pd : List (Nat × Str)) (db : DB) (pmap : List (Nat × Nat)) (fc : Nat)
      {db2 : DB} {pmap2 : List (Nat × Nat)} {fc2 : Nat},
      insertPagesGo srcId flushOk pd db pmap fc = .ok (db2, pmap2, fc2) →
      db2.problems = db.problems ∧ db2.parts = db.parts := by
  intro pd
  induction pd with
  | nil =>
    intro db pmap fc db2 pmap2 fc2 h
    simp only [insertPagesGo, Except.ok.injEq, Prod.mk.injEq] at h
    obtain ⟨h1, _, _⟩ := h
    rw [← h1]
    exact ⟨rfl, rfl⟩
  | cons p rest ih =>
    obtain ⟨n1, text⟩ := p
    intro db pmap fc db2 pmap2 fc2 h
    simp only [insertPagesGo] at h
    by_cases hf : flushOk fc = true
    · rw [if_pos hf] at h
      obtain ⟨h1, h2⟩ := ih _ _ _ h
      exact ⟨h1, h2⟩
    · rw [if_neg hf] at h
      exact Except.noConfusion h

lemma insertTheories_frames (bookId : Nat) :
    ∀ (groups : List (Str × List Str)) (db : DB),
      (insertTheories db bookId groups).problems = db.problems ∧
      (insertTheories db bookId groups).parts = db.parts := by
  intro groups
  induction groups with
  | nil => exact fun db => ⟨rfl, rfl⟩
  | cons g rest ih =>
    intro db
    have heq : insertTheories db bookId (g :: rest) =
        insertTheories (if (strip (joinSep "\n\n".data g.2)).length < 30 then db
          else { db with theories := db.theories ++ [⟨bookId, g.1,
            strip (joinSep "\n\n".data g.2)⟩] }) bookId rest := rfl
    obtain ⟨h1, h2⟩ := ih (if (strip (joinSep "\n\n".data g.2)).length < 30 then db
      else { db with theories := db.theories ++ [⟨bookId, g.1,
        strip (joinSep "\n\n".data g.2)⟩] })
    constructor
    · rw [heq, h1]
      split <;> rfl
    · rw [heq, h2]
      split <;> rfl

lemma probShape_refl : ∀ l : List Problem, List.Forall₂ probShape l l := by
  intro l
  induction l with
  | nil => exact List.Forall₂.nil
  | cons a t ih => exact List.Forall₂.cons ⟨rfl, rfl⟩ ih

lemma probShape_trans : ∀ {a b : List Problem}, List.Forall₂ probShape a b →
    ∀ {c : List Problem}, List.Forall₂ probShape b c →
      List.Forall₂ probShape a c := by
  intro a b hab
  induction hab with
  | nil =>
    intro c hbc
    cases hbc
    exact .nil
  | cons h _ ih =>
    intro c hbc
    cases hbc with
    | cons h2 t2 => exact .cons ⟨h2.1.trans h.1, h2.2.trans h.2⟩ (ih t2)

lemma partsInv_transfer {parts : List ProblemPartR} :
    ∀ {probs probs' : List Problem}, List.Forall₂ probShape probs probs' →
    (∀ pr ∈ probs, pr.hasParts = true → ∃ pt ∈ parts, pt.problemId = pr.id) →
    ∀ pr' ∈ probs', pr'.hasParts = true → ∃ pt ∈ parts, pt.problemId = pr'.id := by
  intro probs probs' h
  induction h with
  | nil =>
    intro _ pr' hmem
    exact absurd hmem (List.not_mem_nil pr')
  | cons hab _ ih =>
    intro hinv pr' hmem hhp
    rcases List.mem_cons.mp hmem with heq | hmem2
    · subst heq
      obtain ⟨pt, hpt, hid⟩ := hinv _ (List.mem_cons_self _ _) (hab.2.symm.trans hhp)
      exact ⟨pt, hpt, hid.trans hab.1.symm⟩
    · exact ih (fun pr h hp => hinv pr (List.mem_cons_of_mem _ h) hp) pr' hmem2 hhp

lemma map_probShape (f : Problem → Problem)
    (hf : ∀ pr, (f pr).id = pr.id ∧ (f pr).hasParts = pr.hasParts) :
    ∀ l : List Problem, List.Forall₂ probShape l (l.map f) := by
  intro l
  induction l with
  | nil => exact .nil
  | cons a t ih => exact .cons ⟨(hf a).1, (hf a).2⟩ ih

lemma applySolutionOnly_forall2 (db : DB) (lastId : Nat) (sol ans : Str) :
    List.Forall₂ probShape db.problems (applySolutionOnly db lastId sol ans).problems := by
  apply map_probShape
  intro pr
  by_cases h : pr.id = lastId
  · rw [if_pos h]
    dsimp only []
    constructor <;> · split <;> split <;> rfl
  · rw [if_neg h]
    exact ⟨rfl, rfl⟩

lemma setAnswerFirst_forall2 (bookId : Nat) (num ans : Str) :
    ∀ probs, List.Forall₂ probShape probs (setAnswerFirst probs bookId num ans) := by
  intro probs
  induction probs with
  | nil => exact .nil
  | cons pr rest ih =>
    simp only [setAnswerFirst]
    split
    · refine .cons ?_ (probShape_refl rest)
      split
      · exact ⟨rfl, rfl⟩
      · exact ⟨rfl, rfl⟩
    · exact .cons ⟨rfl, rfl⟩ ih

lemma applyAnswersItems_forall2 (bookId : Nat) :
    ∀ (items : List (Option AnswerEntry)) (probs : List Problem),
      List.Forall₂ probShape probs (applyAnswersItems bookId items probs) := by
  intro items
  induction items with
  | nil => exact fun probs => probShape_refl probs
  | cons it rest ih =>
    intro probs
    cases it with
    | none =>
      simp only [applyAnswersItems]
      exact ih probs
    | some e =>
      simp only [applyAnswersItems]
      cases hn : orNone (strip (e.number.getD [])) with
      | none => exact ih probs
      | some n =>
        cases ha : orNone (strip (e.answerText.getD [])) with
        | none => exact ih probs
        | some a =>
          exact probShape_trans (setAnswerFirst_forall2 bookId n a probs)
            (ih (setAnswerFirst probs bookId n a))

lemma answersFold_forall2 (bookId : Nat) :
    ∀ (parsed : List Block) (probs : List Problem),
      List.Forall₂ probShape probs (parsed.foldl (fun probs b =>
        if (b.btype.getD []).map pyLower = "answers_block".data then
          match b.answers with
          | some items => applyAnswersItems bookId items probs
          | none => probs
        else probs) probs) := by
  intro parsed
  induction parsed with
  | nil => exact fun probs => probShape_refl probs
  | cons b rest ih =>
    intro probs
    rw [List.foldl_cons]
    refine probShape_trans ?_ (ih _)
    split
    · cases b.answers with
      | none => exact probShape_refl probs
      | some items => exact applyAnswersItems_forall2 bookId items probs
    · exact probShape_refl probs

lemma answersPhase_partsInv (db : DB) (bookId : Nat) (parsed : List Block)
    (hinv : partsInv db) : partsInv (answersPhase db bookId parsed) := by
  intro pr' hm hhp
  exact partsInv_transfer (answersFold_forall2 bookId parsed db.problems) hinv pr' hm hhp

lemma partsFor_good_nonempty (pid : Nat) (l : List (Option PartEntry))
    (hne : l ≠ []) (hgood : ∀ it ∈ l, goodPartsItem it = true) :
    ∃ pt ∈ partsFor pid l, pt.problemId = pid := by
  cases l with
  | nil => exact absurd rfl hne
  | cons it rest =>
    have hit := hgood it (List.mem_cons_self it rest)
    cases it with
    | none => simp [goodPartsItem] at hit
    | some e =>
      simp only [goodPartsItem, Bool.or_eq_true, Bool.not_eq_true'] at hit
      have hcond : ¬(orNone (strip (e.partNumber.getD [])) = none ∧
          orNone (strip (e.partText.getD [])) = none) := by
        intro hand
        obtain ⟨hand1, hand2⟩ := hand
        rw [orNone_eq_none] at hand1 hand2
        rcases hit with hit | hit
        · rw [hand1] at hit
          exact absurd hit (by simp)
        · rw [hand2] at hit
          exact absurd hit (by simp)
      simp only [partsFor, if_neg hcond]
      exact ⟨_, List.mem_cons_self _ _, rfl⟩

lemma insertProblemsGo_partsInv (bookId : Nat) (pmap : List (Nat × Nat))
    (flushOk : Nat → Bool) :
    ∀ (blocks : List Block) (db : DB) (last : Option Nat) (fc : Nat),
      (∀ b ∈ blocks, ∀ it ∈ b.parts.getD [], goodPartsItem it = true) →
      partsInv db →
      ∀ {db2 : DB} {last2 : Option Nat} {fc2 : Nat},
        insertProblemsGo bookId pmap flushOk blocks db last fc = .ok (db2, last2, fc2) →
        partsInv db2 := by
  intro blocks
  induction blocks with
  | nil =>
    intro db last fc _ hinv db2 last2 fc2 h
    simp only [insertProblemsGo, Except.ok.injEq, Prod.mk.injEq] at h
    obtain ⟨h1, _, _⟩ := h
    rw [← h1]
    exact hinv
  | cons b rest ih =>
    intro db last fc hgood hinv db2 last2 fc2 h
    have hgoodrest : ∀ b' ∈ rest, ∀ it ∈ b'.parts.getD [], goodPartsItem it = true :=
      fun b' hb' => hgood b' (List.mem_cons_of_mem _ hb')
    have hgoodb := hgood b (List.mem_cons_self _ _)
    simp only [insertProblemsGo] at h
    split at h
    · split at h
    -- the match on last: some / none
      case h_1 lastId =>
        split at h
        · refine ih _ _ _ hgoodrest ?_ h
          intro pr' hm hhp
          exact partsInv_transfer
            (applySolutionOnly_forall2 db lastId (strip (b.solutionText.getD []))
              (strip (b.answerText.getD []))) hinv pr' hm hhp
        · exact ih _ _ _ hgoodrest hinv h
      case h_2 => exact ih _ _ _ hgoodrest hinv h
    · split at h
      · exact ih _ _ _ hgoodrest hinv h
      · split at h
        · exact ih _ _ _ hgoodrest hinv h
        · split at h
          · refine ih _ _ _ hgoodrest ?_ h
            intro pr' hm hhp
            simp only [] at hm
            rcases List.mem_append.mp hm with hold | hnew
            · obtain ⟨pt, hpt, hid⟩ := hinv pr' hold hhp
              exact ⟨pt, List.mem_append_left _ hpt, hid⟩
            · rw [List.mem_singleton] at hnew
              subst hnew
              simp only [] at hhp
              cases hbp : b.parts with
              | none =>
                simp only [hbp] at hhp
                exact absurd hhp (by simp)
              | some l =>
                simp only [hbp] at hhp
                have hlne : l ≠ [] := by
                  cases l
                  · simp at hhp
                  · simp
                have hgoodl : ∀ it ∈ l, goodPartsItem it = true := by
                  intro it hit2
                  apply hgoodb
                  rw [hbp]
                  exact hit2
                obtain ⟨pt, hptm, hptid⟩ := partsFor_good_nonempty db.nextId l hlne hgoodl
                refine ⟨pt, ?_, hptid⟩
                apply List.mem_append_right
                simp only [hbp, Option.getD_some, hhp, if_true]
                exact hptm
          · exact Except.noConfusion h

lemma import_llm_success (db0 : DB) (srcId : Nat) (fileExists : Bool)
    (pagesData : List (Nat × Str)) (dist : DistribOutcome) (flushOk : Nat → Bool)
    (hs : (import_from_normalized_file_llm db0 srcId fileExists pagesData dist
      flushOk).1 = .success) :
    ∃ (src : PdfSourceR) (parsed : List Block) (s2 : DB) (pmap : List (Nat × Nat))
      (fc : Nat) (s4 : DB) (last2 : Option Nat) (fc2 : Nat),
      db0.sources.find? (fun s => s.id = srcId) = some src ∧
      dist = .ok parsed ∧
      insertPagesGo srcId flushOk pagesData (deletePhase db0 srcId src.bookId) [] 1
        = .ok (s2, pmap, fc) ∧
      insertProblemsGo src.bookId pmap flushOk parsed
        (insertTheories s2 src.bookId (theoryBySection parsed)) none fc
        = .ok (s4, last2, fc2) ∧
      (import_from_normalized_file_llm db0 srcId fileExists pagesData dist flushOk).2
        = { answersPhase s4 src.bookId parsed with
            sources := (answersPhase s4 src.bookId parsed).sources.map (fun s =>
              if s.id = srcId then { s with status := "done".data } else s) } := by
  unfold import_from_normalized_file_llm at hs ⊢
  rcases hsrc : db0.sources.find? (fun s => s.id = srcId) with _ | src
  · simp [hsrc] at hs
  · simp only [hsrc] at hs ⊢
    cases fileExists with
    | false => simp at hs
    | true =>
      rw [if_neg (by simp)] at hs ⊢
      by_cases hpe : pagesData.isEmpty = true
      · rw [if_pos hpe] at hs
        exact absurd hs (by simp)
      · rw [if_neg hpe] at hs ⊢
        cases dist with
        | cancelled => simp at hs
        | failed => simp at hs
        | ok parsed =>
          simp only [] at hs ⊢
          by_cases hpse : parsed.isEmpty = true
          · rw [if_pos hpse] at hs
            exact absurd hs (by simp)
          · rw [if_neg hpse] at hs ⊢
            by_cases hf0 : flushOk 0 = true
            · rw [if_neg (by simp [hf0])] at hs ⊢
              rcases hP : insertPagesGo srcId flushOk pagesData
                  (deletePhase db0 srcId src.bookId) [] 1 with u | ⟨s2, pmap, fc⟩
              · simp [hP] at hs
              · simp only [hP] at hs ⊢
                rcases hQ : insertProblemsGo src.bookId pmap flushOk parsed
                    (insertTheories s2 src.bookId (theoryBySection parsed)) none fc
                    with u | ⟨s4, last2, fc2⟩
                · simp [hQ] at hs
                · simp only [hQ] at hs ⊢
                  exact ⟨src, parsed, s2, pmap, fc, s4, last2, fc2, rfl, rfl,
                    hP, hQ, rfl⟩
            · rw [if_pos hf0] at hs
              exact absurd hs (by simp)

/-- Claim C8 amended: when every entry of every block's parts list is a dict
carrying a non-empty part_number or part_text (after stripping), the
invariant "has_parts implies at least one ProblemPart" is preserved by the
run — given a well-formed initial database (distinct problem ids) that
satisfies it. Deletions carry parts along via ondelete CASCADE, inserted
flagged problems receive at least their first part, and the later update
loops touch only text fields. -/
theorem C8_amended (db0 : DB) (srcId : Nat) (fileExists : Bool)
    (pagesData : List (Nat × Str)) (dist : DistribOutcome) (flushOk : Nat → Bool)
    (hids : ∀ p ∈ db0.problems, ∀ q ∈ db0.problems, p.id = q.id → p = q)
    (hinv : partsInv db0)
    (hgood : ∀ b ∈ blocksOf dist, ∀ it ∈ b.parts.getD [],
      goodPartsItem it = true) :
    partsInv (import_from_normalized_file_llm db0 srcId fileExists pagesData dist
      flushOk).2 := by
  rcases import_llm_cases db0 srcId fileExists pagesData dist flushOk with hs | hb
  · obtain ⟨src, parsed, s2, pmap, fc, s4, last2, fc2, hsrc, hdist, hP, hQ, hfin⟩ :=
      import_llm_success db0 srcId fileExists pagesData dist flushOk hs
    rw [hfin]
    have h1 : partsInv (deletePhase db0 srcId src.bookId) :=
      deletePhase_partsInv db0 srcId src.bookId hids hinv
    obtain ⟨hA, hB⟩ := insertPagesGo_frames srcId flushOk pagesData _ [] 1 hP
    have h2 : partsInv s2 := by
      intro pr hm hhp
      rw [hA] at hm
      obtain ⟨pt, hpt, hid⟩ := h1 pr hm hhp
      exact ⟨pt, by rw [hB]; exact hpt, hid⟩
    obtain ⟨hC, hD⟩ := insertTheories_frames src.bookId (theoryBySection parsed) s2
    have h3 : partsInv (insertTheories s2 src.bookId (theoryBySection parsed)) := by
      intro pr hm hhp
      rw [hC] at hm
      obtain ⟨pt, hpt, hid⟩ := h2 pr hm hhp
      exact ⟨pt, by rw [hD]; exact hpt, hid⟩
    have hgood2 : ∀ b ∈ parsed, ∀ it ∈ b.parts.getD [], goodPartsItem it = true := by
      intro b hb it hit
      exact hgood b (by rw [hdist]; exact hb) it hit
    have h4 : partsInv s4 :=
      insertProblemsGo_partsInv src.bookId pmap flushOk parsed _ none fc hgood2 h3 hQ
    have h5 : partsInv (answersPhase s4 src.bookId parsed) :=
      answersPhase_partsInv s4 src.bookId parsed h4
    exact fun pr hm hhp => h5 pr hm hhp
  · rw [hb]
    exact hinv

theorem C8_witness :
    ((∀ p ∈ c8db.problems, ∀ q ∈ c8db.problems, p.id = q.id → p = q) ∧
      partsInv c8db ∧
      (∀ b ∈ blocksOf (.ok [c8goodblock]), ∀ it ∈ b.parts.getD [],
        goodPartsItem it = true)) ∧
    partsInv (import_from_normalized_file_llm c8db 1 true [(1, "страница".data)]
      (.ok [c8goodblock]) (fun _ => true)).2 :=
  ⟨⟨by decide, by unfold partsInv; decide, by decide⟩,
    C8_amended c8db 1 true [(1, "страница".data)] (.ok [c8goodblock])
      (fun _ => true) (by decide) (by unfold partsInv; decide) (by decide)⟩

end GDZ

